import Mathlib

/-!
Verification of the templated-document assembly engine of this repository.

The development shallowly embeds the two central modules:

* `hwp/image_packer.py` — the image `Img` record and the layout engine
  `_layout` (grid packing by median-scale heuristic);
* `ledger/hwp/hwp_generator_xml.py` — the HWPX generator `run`, with its
  helpers `_find_expense_ps`, `_read_template_params`, `_max_binary_idx`,
  `_max_z_order`, `_update_content_hpf`, `_build_pic`, `_build_table`.

Modelling conventions:

* Python floats are modelled as exact rationals (`ℚ`); machine-level float
  rounding is outside the model.
* lxml element trees are modelled by the nested inductive `Elem`
  (namespace-qualified tag, attribute association list in insertion order,
  child list, optional text).  lxml's identity-based child removal is
  modelled value-based; `remove` of an absent child raises `ValueError`
  in lxml and is modelled by `Except`.
* Python exceptions that the code can raise (`ValueError`) or catch
  (image loading errors) are modelled with `Except` / `Option`.
* Reading an image file from disk is modelled by an environment
  `Env : String → Option ImgSpec`; a `none` entry models a path on which
  `PIL` raises (`OSError`, `UnidentifiedImageError`,
  `DecompressionBombError`).
* Serialisation (`etree.tostring`) is a deterministic injective function of
  the tree, so "byte-identical markup" is modelled as equality of trees.
-/

/-! ## Python-level helpers: rounding, integer parsing, decimal printing -/

/-- Python `round` on a real value: round half to even (banker's rounding). -/
def pyRound (q : ℚ) : ℤ :=
  let f : ℤ := ⌊q⌋
  let r : ℚ := q - (f : ℚ)
  if r < 1/2 then f
  else if 1/2 < r then f + 1
  else if f % 2 = 0 then f else f + 1

/-- Python floor division `//` on integers. -/
def pyFloorDiv (a b : ℤ) : ℤ := Int.fdiv a b

/-- Python `math.ceil(n / cols)` for natural `n`, `cols > 0`. -/
def pyCeilDiv (n cols : ℕ) : ℕ := (n + cols - 1) / cols

/-- Decimal digits of a natural number, most significant first
(the digits of Python `str(n)` / an f-string interpolation of `n`). -/
def natDigits (n : ℕ) : List Char :=
  if h : n < 10 then [Char.ofNat (48 + n)]
  else natDigits (n / 10) ++ [Char.ofNat (48 + n % 10)]
decreasing_by
  exact Nat.div_lt_self (by omega) (by omega)

/-- Python `str(n)` for a natural number. -/
def natStr (n : ℕ) : String := String.mk (natDigits n)

/-- Python `str(z)` for an integer. -/
def intStr (z : ℤ) : String :=
  if z < 0 then String.mk ('-' :: natDigits z.natAbs) else natStr z.natAbs

/-- Numeric value of a list of decimal digit characters. -/
def digitsVal (l : List Char) : ℕ :=
  l.foldl (fun a c => 10 * a + (c.toNat - 48)) 0

/-- One step of Python's integer-literal body: digits possibly separated by
single underscores (`int("1_0") = 10`); underscores may not lead, trail or
repeat.  `sawDigit` records whether the previous character was a digit. -/
def pyIntDigits : List Char → Bool → Option (List Char)
  | [], sawDigit => if sawDigit then some [] else none
  | c :: cs, sawDigit =>
    if c.isDigit then (pyIntDigits cs true).map (fun ds => c :: ds)
    else if c = '_' then
      if sawDigit then
        match cs with
        | [] => none
        | d :: _ => if d.isDigit then pyIntDigits cs false else none
      else none
    else none

/-- Python `int(s)`: optional surrounding ASCII whitespace, optional sign,
then a non-empty digit string (underscore separators allowed).
`none` models the `ValueError` that `int` raises otherwise. -/
def pyInt (s : String) : Option ℤ :=
  let chars := s.data.dropWhile (fun c => c = ' ' ∨ c = '\t' ∨ c = '\n' ∨ c = '\r')
  let chars := (chars.reverse.dropWhile (fun c => c = ' ' ∨ c = '\t' ∨ c = '\n' ∨ c = '\r')).reverse
  match chars with
  | [] => none
  | c :: rest =>
    if c = '-' then (pyIntDigits rest false).map (fun ds => -(digitsVal ds : ℤ))
    else if c = '+' then (pyIntDigits rest false).map (fun ds => (digitsVal ds : ℤ))
    else (pyIntDigits (c :: rest) false).map (fun ds => (digitsVal ds : ℤ))

/-- Stable insertion of one element into an ascending list (helper for the
model of Python `sorted`). -/
def pySortInsert (x : ℚ) : List ℚ → List ℚ
  | [] => [x]
  | y :: ys => if x ≤ y then x :: y :: ys else y :: pySortInsert x ys

/-- Python `sorted` on a list of real scales: ascending stable sort.
On a totally ordered type any sort agrees with Python's Timsort
element-wise, so insertion sort is an exact model. -/
def pySorted : List ℚ → List ℚ
  | [] => []
  | x :: xs => pySortInsert x (pySorted xs)

/-- Python `list.insert(i, a)`: insert at position `i`, clamping to the
ends (Python clamps; it never fails). -/
def pyInsert (l : List α) (i : ℕ) (a : α) : List α :=
  l.take i ++ a :: l.drop i

/-! ## `hwp/image_packer.py` — data model -/

/-- `image_packer.Img`: an image with its (orientation-corrected) pixel
size.  `PIL` reports positive integer dimensions; they are carried as
rationals because the layout arithmetic divides by them. -/
structure Img where
  path : String
  w : ℚ
  h : ℚ
deriving DecidableEq, Repr

/-- `image_packer.LayoutItem`: index into the original image list, source
path, and the scaled display size `(width, height)`. -/
structure LayoutItem where
  idx : ℕ
  path : String
  size : ℚ × ℚ
deriving DecidableEq, Repr

/-- `image_packer.LayoutResult` with its constructor defaults
(`area = -1`, no items, no grid). -/
structure LayoutResult where
  area : ℚ := -1
  items : List LayoutItem := []
  grid : Option (ℕ × ℕ) := none
deriving DecidableEq, Repr

/-! ## `hwp/image_packer.py` — the layout engine `_layout` -/

/-- The candidate layout `_layout` computes for one column count `cols`:
`rows = ceil(n / cols)`, `cell_w = cw / cols`, `cell_h = ch / rows`,
per-image maximum non-overflow scales, their median (ascending sort,
index `n // 2`), per-image scale `min(median, own max scale)`,
and the summed displayed area. -/
def layoutCandidate (imgs : List Img) (cw ch : ℚ) (cols : ℕ) : LayoutResult :=
  let n := imgs.length
  let rows := pyCeilDiv n cols
  let cellW := cw / (cols : ℚ)
  let cellH := ch / (rows : ℚ)
  let scales := imgs.map (fun img => min (cellW / img.w) (cellH / img.h))
  let medianScale := (pySorted scales).getD (n / 2) 0
  let items := imgs.enum.map (fun p =>
    let scale := min medianScale (min (cellW / p.2.w) (cellH / p.2.h))
    LayoutItem.mk p.1 p.2.path (p.2.w * scale, p.2.h * scale))
  let area := (items.map (fun it => it.size.1 * it.size.2)).sum
  ⟨area, items, some (rows, cols)⟩

/-- The candidate loop of `_layout`: fold the `best`-so-far over the
column counts, replacing it when the candidate places all images and has
strictly larger area. -/
def layoutFold (imgs : List Img) (cw ch : ℚ) (best : LayoutResult) :
    List ℕ → LayoutResult
  | [] => best
  | cols :: rest =>
    let cand := layoutCandidate imgs cw ch cols
    layoutFold imgs cw ch
      (if cand.items.length = imgs.length ∧ best.area < cand.area then cand else best)
      rest

/-- Candidate column counts `range(1, min(n + 1, 6))` of `_layout`. -/
def layoutCols (n : ℕ) : List ℕ := List.range' 1 (min n 5)

/-- `image_packer._layout`: `none` for an empty list, otherwise the best
candidate over column counts `1 .. min(n, 5)`; `none` if the best places
fewer than `n` images (its `area > best.area` guard compares with the
initial `LayoutResult()` whose area is `-1`). -/
def layout (imgs : List Img) (cw ch : ℚ) : Option LayoutResult :=
  let n := imgs.length
  if n = 0 then none
  else
    let best := layoutFold imgs cw ch {} (layoutCols n)
    if best.items.length = n then some best else none

/-- Greatest candidate area of a non-empty candidate list (used by the
specification-side reading of the selection rule). -/
def bestAreaOf : List LayoutResult → ℚ
  | [] => -1
  | r :: rs => rs.foldl (fun a x => max a x.area) r.area

/-- Modelled from the spec's words, for the refinement claim about the
selection rule: among the eligible candidates (those that place all `n`
images) keep the one with the strictly largest total displayed area,
ties keeping the earliest (smallest column count); `none` when there is
no eligible candidate, and `none` immediately for `n = 0`. -/
def layoutSpec (imgs : List Img) (cw ch : ℚ) : Option LayoutResult :=
  if imgs.length = 0 then none
  else
    let cands := (layoutCols imgs.length).map (layoutCandidate imgs cw ch)
    let eligible := cands.filter (fun r => r.items.length = imgs.length)
    if eligible.isEmpty then none
    else eligible.find? (fun r => r.area = bestAreaOf eligible)

/-! ## The lxml element-tree model -/

/-- A qualified lxml tag.  lxml writes it as the single string
`{namespace}localname`; the model keeps the two components.  An element
without a namespace has `ns = ""`. -/
structure Tag where
  ns : String
  nm : String
deriving DecidableEq, Repr

/-- An lxml element: tag, attribute dictionary (association list in
insertion order), child elements in document order, and optional text. -/
inductive Elem : Type where
  | node (tag : Tag) (attrs : List (String × String)) (children : List Elem)
      (txt : Option String)

def Elem.tag : Elem → Tag
  | .node t _ _ _ => t

def Elem.attrs : Elem → List (String × String)
  | .node _ a _ _ => a

def Elem.children : Elem → List Elem
  | .node _ _ c _ => c

def Elem.txt : Elem → Option String
  | .node _ _ _ x => x

mutual
def decEqElem : (a b : Elem) → Decidable (a = b)
  | .node t1 a1 c1 x1, .node t2 a2 c2 x2 =>
    if h1 : t1 = t2 then
      if h2 : a1 = a2 then
        match decEqElemList c1 c2 with
        | isTrue h3 =>
          if h4 : x1 = x2 then isTrue (by rw [h1, h2, h3, h4])
          else isFalse (by intro h; injection h; contradiction)
        | isFalse h3 => isFalse (by intro h; injection h; contradiction)
      else isFalse (by intro h; injection h; contradiction)
    else isFalse (by intro h; injection h; contradiction)
def decEqElemList : (a b : List Elem) → Decidable (a = b)
  | [], [] => isTrue rfl
  | [], _ :: _ => isFalse (by intro h; cases h)
  | _ :: _, [] => isFalse (by intro h; cases h)
  | a :: as, b :: bs =>
    match decEqElem a b, decEqElemList as bs with
    | isTrue h1, isTrue h2 => isTrue (by rw [h1, h2])
    | isFalse h1, _ => isFalse (by intro h; injection h; contradiction)
    | _, isFalse h2 => isFalse (by intro h; injection h; contradiction)
end

instance : DecidableEq Elem := decEqElem

/-- `element.get(key)`: first binding of an attribute key. -/
def Elem.attr (e : Elem) (k : String) : Option String :=
  (e.attrs.find? (fun p => p.1 = k)).map (fun p => p.2)

/-- `element.get(key, dflt)` for string defaults. -/
def Elem.attrD (e : Elem) (k d : String) : String :=
  (e.attr k).getD d

/-- lxml `element.find(tag)`: first direct child with the given tag. -/
def Elem.findTag (e : Elem) (t : Tag) : Option Elem :=
  e.children.find? (fun c => c.tag = t)

/-- lxml `element.findall(tag)`: all direct children with the given tag. -/
def Elem.findAllTag (e : Elem) (t : Tag) : List Elem :=
  e.children.filter (fun c => c.tag = t)

mutual
/-- lxml `element.iter()`: the element itself and all descendants in
document order. -/
def iterElems : Elem → List Elem
  | .node t a cs tx => .node t a cs tx :: iterElemsList cs
def iterElemsList : List Elem → List Elem
  | [] => []
  | c :: cs => iterElems c ++ iterElemsList cs
end

/-- All values of one attribute over `element.iter()`, in document order
(used for the element-id and z-order sequences of the determinism claim). -/
def attrSeq (name : String) (root : Elem) : List String :=
  (iterElems root).filterMap (fun e => e.attr name)

/-- Replace the first child satisfying `pred` (models an in-place lxml
mutation of that child). -/
def replaceFirstChild (pred : Elem → Bool) (f : Elem → Elem) : List Elem → List Elem
  | [] => []
  | c :: cs => if pred c then f c :: cs else c :: replaceFirstChild pred f cs

/-- lxml `parent.remove(child)`: removes the first occurrence; lxml raises
`ValueError` when the element is not among the children. -/
def removeFirstChild : List Elem → Elem → Option (List Elem)
  | [], _ => none
  | c :: cs, p => if c = p then some cs else (removeFirstChild cs p).map (fun l => c :: l)

/-- The `for p in expense_ps: root.remove(p)` loop of `run`
(`none` models the `ValueError` raised on a missing child). -/
def removeAll : List Elem → List Elem → Option (List Elem)
  | l, [] => some l
  | l, p :: ps =>
    match removeFirstChild l p with
    | some l' => removeAll l' ps
    | none => none

/-- Python `list(root).index(p)` (first position of a matching element). -/
def indexOfElem (l : List Elem) (p : Elem) : ℕ := l.findIdx (fun c => c = p)

/-! ## String helpers used by the generator -/

/-- `a.isPrefixOf b` written out (string `startswith` on character lists). -/
def listStarts : List Char → List Char → Bool
  | [], _ => true
  | _ :: _, [] => false
  | a :: as, b :: bs => a = b ∧ listStarts as bs

/-- Python `s.split(sep)` for a non-empty separator, on character lists. -/
def pySplitGo (sep : List Char) (s : List Char) : List (List Char) :=
  match s with
  | [] => [[]]
  | c :: rest =>
    if h : sep ≠ [] ∧ listStarts sep (c :: rest) = true then
      [] :: pySplitGo sep (List.drop sep.length (c :: rest))
    else
      match pySplitGo sep rest with
      | [] => [[c]]
      | p :: ps => (c :: p) :: ps
termination_by s.length
decreasing_by
  · simp only [List.length_drop, List.length_cons]
    have hsep : 1 ≤ sep.length := by
      rcases h with ⟨h1, _⟩
      cases sep with
      | nil => exact absurd rfl h1
      | cons a t => simp
    omega
  · simp

/-- Python `s.split(sep)` (non-empty separator). -/
def pySplit (sep s : String) : List String :=
  (pySplitGo sep.data s.data).map String.mk

/-- Python `s.rsplit('.', 1)`: split once at the last dot. -/
def pyRSplit1Dot (s : String) : List String :=
  let rev := s.data.reverse
  if rev.any (fun c => c = '.') then
    let after := rev.takeWhile (fun c => ¬(c = '.'))
    let before := (rev.dropWhile (fun c => ¬(c = '.'))).drop 1
    [String.mk before.reverse, String.mk after.reverse]
  else [s]

/-- Python `s.lower()` (ASCII case folding suffices here). -/
def pyLower (s : String) : String := String.mk (s.data.map Char.toLower)

/-- Python `s.lstrip('.')`. -/
def stripDots (s : String) : String :=
  String.mk (s.data.dropWhile (fun c => c = '.'))

/-- `os.path.splitext(path)[1]`: the extension (with its leading dot) of
the basename; leading dots of the basename never start an extension. -/
def pySplitextExt (path : String) : String :=
  let base := ((pySplit "/" path).getLast?).getD path
  let cs := base.data
  let leading := cs.takeWhile (fun c => c = '.')
  let rest := cs.drop leading.length
  if rest.any (fun c => c = '.') then
    let afterRev := rest.reverse.takeWhile (fun c => ¬(c = '.'))
    String.mk ('.' :: afterRev.reverse)
  else ""

/-- The `ext = os.path.splitext(img.path)[1].lstrip('.').lower() or 'png'`
of the record loop. -/
def extOf (path : String) : String :=
  let e := pyLower (stripDots (pySplitextExt path))
  if e = "" then "png" else e

/-! ## `ledger/hwp/hwp_generator_xml.py` — constants and data model -/

/-- HWPX paragraph namespace `HP`. -/
def HP : String := "http://www.hancom.co.kr/hwpml/2011/paragraph"

/-- HWPX core namespace `HC`. -/
def HC : String := "http://www.hancom.co.kr/hwpml/2011/core"

def hpTag (nm : String) : Tag := ⟨HP, nm⟩

def hcTag (nm : String) : Tag := ⟨HC, nm⟩

/-- `HWP_PER_MM = 7200 / 25.4` (exact rational model of the float). -/
def HWP_PER_MM : ℚ := 7200 / (254 / 10)

/-- Seed of the module-level sequential element-id counter
(`itertools.count(100_000_000)`). -/
def idCounterSeed : ℕ := 100000000

/-- `'Contents/section0.xml'`. -/
def SEC_KEY : String := "Contents/section0.xml"

/-- `'Contents/content.hpf'`. -/
def HPF_KEY : String := "Contents/content.hpf"

/-- One archive part: either an XML part (modelled parsed — feeding it to
`etree.fromstring` succeeds) or an opaque binary part (parsing it raises
`XMLSyntaxError`). -/
inductive Content : Type where
  | xml (e : Elem)
  | bin (s : String)
deriving DecidableEq

/-- The template archive as `run` reads it: whether `zipfile.is_zipfile`
accepts the path, and the entry dictionary `name → bytes` in archive
order (`ZipInfo` metadata carries no information the claims touch). -/
structure Template where
  isZip : Bool
  files : List (String × Content)
deriving DecidableEq

/-- Dictionary lookup `d[k]` / `k in d` on an association list. -/
def lookupD (d : List (String × α)) (k : String) : Option α :=
  (d.find? (fun p => p.1 = k)).map (fun p => p.2)

/-- Dictionary assignment `d[k] = v`: replace in place when the key
exists, otherwise append (Python dict insertion order). -/
def dictSet (d : List (String × α)) (k : String) (v : α) : List (String × α) :=
  if d.any (fun p => p.1 = k) then
    d.map (fun p => if p.1 = k then (k, v) else p)
  else d ++ [(k, v)]

/-- The Python exceptions distinguished by the model. -/
inductive ErrKind : Type where
  | notZipFormat        -- template path fails `zipfile.is_zipfile`
  | missingSection      -- `Contents/section0.xml` absent
  | missingManifestPart -- `Contents/content.hpf` absent
  | badInt (s : String) -- `int(...)` raised `ValueError` on this text
  | removeMissing       -- `root.remove(p)` with `p` not a child
  | manifestNotFound    -- `_update_content_hpf` found no manifest element
deriving DecidableEq, Repr

/-- Errors that abort `run`: Python `ValueError` (the spec's
`FormatError`) or lxml's `XMLSyntaxError` (a different class). -/
inductive RunError : Type where
  | valueError (k : ErrKind)
  | xmlSyntax
deriving DecidableEq, Repr

/-- `etree.fromstring` on an archive part. -/
def parseXmlContent : Content → Except RunError Elem
  | .xml e => .ok e
  | .bin _ => .error .xmlSyntax

/-- `_TemplateParams` with its field defaults. -/
structure TemplateParams where
  cell_w : ℤ := 51877
  title_row_h : ℤ := 4117
  img_cell_h : ℤ := 25332
  margin_lr : ℤ := 510
  margin_tb : ℤ := 141
  out_margin : ℤ := 283
  vert_offset : ℤ := 434
  border_fill_id : String := "3"
  title_para_pr : String := "22"
  title_style_id : String := "22"
  title_char_pr : String := "13"
  img_para_pr : String := "20"
  img_style_id : String := "0"
  img_char_pr : String := "14"
  wrap_para_pr : String := "20"
  wrap_char_pr : String := "7"
  title_lineseg : List (String × String) :=
    [("textpos", "0"), ("vertpos", "0"), ("vertsize", "1100"), ("textheight", "1100"),
     ("baseline", "550"), ("spacing", "0"), ("horzpos", "0"), ("horzsize", "50856"),
     ("flags", "393216")]
  wrap_lineseg : List (String × String) :=
    [("textpos", "0"), ("vertpos", "0"), ("vertsize", "1700"), ("textheight", "1700"),
     ("baseline", "1445"), ("spacing", "1020"), ("horzpos", "0"), ("horzsize", "0"),
     ("flags", "393216")]
deriving DecidableEq, Repr

/-- `img_w_mm`: layout width in millimetres. -/
def TemplateParams.imgWmm (p : TemplateParams) : ℚ := (p.cell_w : ℚ) / HWP_PER_MM

/-- `img_h_mm`: layout height in millimetres. -/
def TemplateParams.imgHmm (p : TemplateParams) : ℚ := (p.img_cell_h : ℚ) / HWP_PER_MM

/-- A two-row one-column `hp:tbl` (the record-block table shape). -/
def isRecordTbl (t : Elem) : Bool :=
  t.tag = hpTag "tbl" ∧ t.attr "rowCnt" = some "2" ∧ t.attr "colCnt" = some "1"

/-- The matching `hp:run` children of a paragraph: those containing a
two-row one-column table. -/
def matchRuns (p : Elem) : List Elem :=
  p.children.filter (fun r => r.tag = hpTag "run" ∧ r.children.any isRecordTbl)

/-- What one direct child contributes to `_find_expense_ps`: the
paragraph once per matching run (the source's `break` leaves only the
innermost loop, so a paragraph with several matching runs is appended
several times). -/
def expContrib (p : Elem) : List Elem :=
  if p.tag = hpTag "p" then (matchRuns p).map (fun _ => p) else []

/-- `_find_expense_ps`: direct `hp:p` children of the body that contain,
through an `hp:run` child, a two-row one-column `hp:tbl`. -/
def findExpensePs (root : Elem) : List Elem :=
  root.children.flatMap expContrib

/-- `int(e.get(k, dflt))` where the default is already an integer:
a present attribute is parsed by Python `int` (raising `ValueError` —
modelled as `Except.error` — on malformed text), an absent one keeps the
integer default. -/
def getIntAttr (e : Elem) (k : String) (dflt : ℤ) : Except RunError ℤ :=
  match e.attr k with
  | none => .ok dflt
  | some s =>
    match pyInt s with
    | some z => .ok z
    | none => .error (.valueError (.badInt s))

/-- The style refinements `_from_tc` makes from the cell's first
paragraph (`para`) and its first run. -/
def fromTcStyles (p : TemplateParams) (para : Elem) (isTitle : Bool) : TemplateParams :=
  let run? := para.findTag (hpTag "run")
  if isTitle then
    let p := { p with title_para_pr := para.attrD "paraPrIDRef" p.title_para_pr }
    let p := { p with title_style_id := para.attrD "styleIDRef" p.title_style_id }
    let p := match run? with
      | some r => { p with title_char_pr := r.attrD "charPrIDRef" p.title_char_pr }
      | none => p
    match para.findTag (hpTag "linesegarray") with
    | some lsa =>
      match lsa.children with
      | l0 :: _ => { p with title_lineseg := l0.attrs }
      | [] => p
    | none => p
  else
    let p := { p with img_para_pr := para.attrD "paraPrIDRef" p.img_para_pr }
    let p := { p with img_style_id := para.attrD "styleIDRef" p.img_style_id }
    match run? with
    | some r => { p with img_char_pr := r.attrD "charPrIDRef" p.img_char_pr }
    | none => p

/-- The cell-size refinements of `_from_tc`. -/
def fromTcSize (p0 : TemplateParams) (tc : Elem) (isTitle : Bool) :
    Except RunError TemplateParams :=
  match tc.findTag (hpTag "cellSz") with
  | some csz =>
    match getIntAttr csz "width" p0.cell_w with
    | .error e => .error e
    | .ok w =>
      if isTitle then
        match getIntAttr csz "height" p0.title_row_h with
        | .error e => .error e
        | .ok hv => .ok { p0 with cell_w := w, title_row_h := hv }
      else
        match getIntAttr csz "height" p0.img_cell_h with
        | .error e => .error e
        | .ok hv => .ok { p0 with cell_w := w, img_cell_h := hv }
  | none => .ok p0

/-- The cell-margin refinements of `_from_tc`. -/
def fromTcMargin (p1 : TemplateParams) (tc : Elem) : Except RunError TemplateParams :=
  match tc.findTag (hpTag "cellMargin") with
  | some cm =>
    match getIntAttr cm "left" p1.margin_lr with
    | .error e => .error e
    | .ok ml =>
      match getIntAttr cm "top" p1.margin_tb with
      | .error e => .error e
      | .ok mt => .ok { p1 with margin_lr := ml, margin_tb := mt }
  | none => .ok p1

/-- `_read_template_params._from_tc`: refine cell size, margins and
paragraph/run styles from one `hp:tc` (`none` models the early return on a
missing cell). -/
def fromTc (p0 : TemplateParams) (tc? : Option Elem) (isTitle : Bool) :
    Except RunError TemplateParams :=
  match tc? with
  | none => .ok p0
  | some tc =>
    match fromTcSize p0 tc isTitle with
    | .error e => .error e
    | .ok p1 =>
      match fromTcMargin p1 tc with
      | .error e => .error e
      | .ok p2 =>
        match tc.findTag (hpTag "subList") with
        | none => .ok p2
        | some sl =>
          match sl.findTag (hpTag "p") with
          | none => .ok p2
          | some para => .ok (fromTcStyles p2 para isTitle)

/-- The `pos.vertOffset` refinement of `_read_template_params`. -/
def readVertOffset (p0 : TemplateParams) (tbl : Elem) : Except RunError TemplateParams :=
  match tbl.findTag (hpTag "pos") with
  | some tp =>
    match getIntAttr tp "vertOffset" p0.vert_offset with
    | .error e => .error e
    | .ok v => .ok { p0 with vert_offset := v }
  | none => .ok p0

/-- The `outMargin.bottom` refinement of `_read_template_params`. -/
def readOutMargin (p1 : TemplateParams) (tbl : Elem) : Except RunError TemplateParams :=
  match tbl.findTag (hpTag "outMargin") with
  | some om =>
    match getIntAttr om "bottom" p1.out_margin with
    | .error e => .error e
    | .ok v => .ok { p1 with out_margin := v }
  | none => .ok p1

/-- The wrap-paragraph style refinements at the top of
`_read_template_params` (`wrap_para_pr`, `wrap_char_pr`,
`wrap_lineseg`). -/
def wrapRefined (wrapP : Elem) : TemplateParams :=
  let p0 : TemplateParams := {}
  let p0 := { p0 with wrap_para_pr := wrapP.attrD "paraPrIDRef" p0.wrap_para_pr }
  match wrapP.findTag (hpTag "run") with
  | some wr =>
    let p0 := { p0 with wrap_char_pr := wr.attrD "charPrIDRef" p0.wrap_char_pr }
    match wrapP.findTag (hpTag "linesegarray") with
    | some lsa =>
      match lsa.children with
      | l0 :: _ => { p0 with wrap_lineseg := l0.attrs }
      | [] => p0
    | none => p0
  | none => p0

/-- The table the extractor refines from: the first one-column `hp:tbl`
child of the wrap paragraph's first `hp:run` child. -/
def findWrapTbl (wrapP : Elem) : Option Elem :=
  match wrapP.findTag (hpTag "run") with
  | none => none
  | some wr =>
    wr.children.find? (fun t : Elem => t.tag = hpTag "tbl" ∧ t.attr "colCnt" = some "1")

/-- The `borderFillIDRef` refinement of `_read_template_params`. -/
def borderRefined (wrapP tbl : Elem) : TemplateParams :=
  { wrapRefined wrapP with
    border_fill_id := tbl.attrD "borderFillIDRef" (wrapRefined wrapP).border_fill_id }

/-- `_read_template_params`: best-effort extraction of layout and style
parameters from the first recognised record block; every piece that is
missing keeps its `_TemplateParams` default.  A present but non-integer
numeric attribute makes `int(...)` raise `ValueError`
(`Except.error`). -/
def readTemplateParams (expensePs : List Elem) : Except RunError TemplateParams :=
  match expensePs with
  | [] => .ok {}
  | wrapP :: _ =>
    match findWrapTbl wrapP with
    | none => .ok (wrapRefined wrapP)
    | some tbl =>
      match readVertOffset (borderRefined wrapP tbl) tbl with
      | .error e => .error e
      | .ok p1 =>
        match readOutMargin p1 tbl with
        | .error e => .error e
        | .ok p2 =>
          match tbl.findAllTag (hpTag "tr") with
          | r0 :: r1 :: _ =>
            match fromTc p2 (r0.findTag (hpTag "tc")) true with
            | .error e => .error e
            | .ok p3 =>
              match fromTc p3 (r1.findTag (hpTag "tc")) false with
              | .error e => .error e
              | .ok p4 => .ok p4
          | _ => .ok p2

/-- The `zOrder` values over `root.iter()` in document order; the first
non-integer value makes `int(...)` raise. -/
def maxZVals : List Elem → Except RunError (List ℤ)
  | [] => .ok []
  | e :: es =>
    match e.attr "zOrder" with
    | none => maxZVals es
    | some s =>
      match pyInt s with
      | some z => (maxZVals es).map (fun l => z :: l)
      | none => .error (.valueError (.badInt s))

/-- `_max_z_order`: the greatest `zOrder` over the tree, `0` when no
element carries one. -/
def maxZOrder (root : Elem) : Except RunError ℤ :=
  match maxZVals (iterElems root) with
  | .error e => .error e
  | .ok [] => .ok 0
  | .ok (v :: vs) => .ok (vs.foldl max v)

/-- The numeric index `N` of a `BinData/imageN.*` entry name:
`int(name.split('/image')[1].split('.')[0])` guarded by
`startswith('BinData/image')`, with `ValueError` swallowed (`none`). -/
def parseBinIdx (name : String) : Option ℤ :=
  if listStarts ("BinData/image".data) name.data then
    match pySplit "/image" name with
    | _ :: piece :: _ =>
      match pySplit "." piece with
      | p0 :: _ => pyInt p0
      | [] => none
    | _ => none
  else none

/-- `_max_binary_idx`: greatest `N` over `BinData/imageN.*` entries, `0`
when there is none. -/
def maxBinaryIdx (files : List (String × Content)) : ℤ :=
  files.foldl (fun idx p =>
    match parseBinIdx p.1 with
    | some n => max idx n
    | none => idx) 0

/-- `_MIME` lookup with the `application/octet-stream` fallback. -/
def mimeOf (ext : String) : String :=
  if ext = "png" then "image/png"
  else if ext = "jpg" then "image/jpeg"
  else if ext = "jpeg" then "image/jpeg"
  else if ext = "bmp" then "image/bmp"
  else if ext = "gif" then "image/gif"
  else if ext = "webp" then "image/webp"
  else "application/octet-stream"

/-- One `opf:item` appended to the manifest for a new binary entry. -/
def mkManifestItem (opfNs : String) (binPath : String) : Elem :=
  let fname := ((pySplit "/" binPath).getLast?).getD binPath
  let parts := pyRSplit1Dot fname
  let bid := parts.headD fname
  let ext := pyLower ((parts.getLast?).getD fname)
  Elem.node ⟨opfNs, "item"⟩
    [("id", bid), ("href", binPath), ("media-type", mimeOf ext), ("isEmbeded", "1")]
    [] none

/-- `_update_content_hpf`: parse the manifest part, extract the OPF
namespace from the root tag, locate the `manifest` element (its absence
raises `ValueError`), and append one `item` per new binary. -/
def updateContentHpf (hpf : Content) (newBinaries : List (String × String)) :
    Except RunError Content :=
  match parseXmlContent hpf with
  | .error e => .error e
  | .ok root =>
    let opfNs := root.tag.ns
    match root.findTag ⟨opfNs, "manifest"⟩ with
    | none => .error (.valueError .manifestNotFound)
    | some _ =>
      let newChildren := replaceFirstChild (fun c => c.tag = ⟨opfNs, "manifest"⟩)
        (fun m => Elem.node m.tag m.attrs
          (m.children ++ newBinaries.map (fun b => mkManifestItem opfNs b.1)) m.txt)
        root.children
      .ok (.xml (Elem.node root.tag root.attrs newChildren root.txt))

/-! ## `ledger/hwp/hwp_generator_xml.py` — element builders -/

/-- What the filesystem/PIL boundary yields for one image path: the
orientation-corrected pixel size that `Img(path)` reports, the `dpi`
metadata the second `Image.open` in `_build_pic` reads (`none` when the
file carries none), and the re-encoded file bytes that
`open(path, 'rb').read()` returns (`none` when that read raises
`OSError`). -/
structure ImgSpec where
  w : ℚ
  h : ℚ
  dpi : Option (ℚ × ℚ)
  bytes : Option String
deriving DecidableEq, Repr

/-- The image environment: `none` at a path models `Img(path)` raising
one of the caught loading errors (`OSError`, `UnidentifiedImageError`,
`DecompressionBombError`). -/
def Env : Type := String → Option ImgSpec

/-- `im.info.get('dpi', (96, 96))` for the (already loaded) image. -/
def dpiOf (env : Env) (path : String) : ℚ × ℚ :=
  match env path with
  | some spec => spec.dpi.getD (96, 96)
  | none => (96, 96)

/-- `float(raw_dpi[i]) or 96`: a zero resolution falls back to 96. -/
def dpiOr96 (d : ℚ) : ℚ := if d = 0 then 96 else d

/-- The identity-matrix attribute list of `renderingInfo` children. -/
def idMatrixAttrs : List (String × String) :=
  [("e1", "1"), ("e2", "0"), ("e3", "0"), ("e4", "0"), ("e5", "1"), ("e6", "0")]

/-- `_build_pic`: the inline `hp:pic` element for one placed image, with
its display size, physical size from the DPI metadata, stacking order
`z`, and two freshly drawn sequential ids (`id`, `instid`).  Returns the
element and the advanced id counter. -/
def buildPic (env : Env) (binaryId : String) (img : Img) (dispW dispH : ℤ) (z : ℤ)
    (idc : ℕ) : Elem × ℕ :=
  let rawDpi := dpiOf env img.path
  let dpiX := dpiOr96 rawDpi.1
  let dpiY := dpiOr96 rawDpi.2
  let orgW := pyRound (img.w / dpiX * 7200)
  let orgH := pyRound (img.h / dpiY * 7200)
  let pic := Elem.node (hpTag "pic")
    [("id", natStr idc), ("zOrder", intStr z), ("numberingType", "PICTURE"),
     ("textWrap", "TOP_AND_BOTTOM"), ("textFlow", "BOTH_SIDES"), ("lock", "0"),
     ("dropcapstyle", "None"), ("href", ""), ("groupLevel", "0"),
     ("instid", natStr (idc + 1)), ("reverse", "0")]
    [Elem.node (hpTag "offset") [("x", "0"), ("y", "0")] [] none,
     Elem.node (hpTag "orgSz") [("width", intStr dispW), ("height", intStr dispH)] [] none,
     Elem.node (hpTag "curSz") [("width", "0"), ("height", "0")] [] none,
     Elem.node (hpTag "flip") [("horizontal", "0"), ("vertical", "0")] [] none,
     Elem.node (hpTag "rotationInfo")
       [("angle", "0"), ("centerX", intStr (pyFloorDiv dispW 2)),
        ("centerY", intStr (pyFloorDiv dispH 2)), ("rotateimage", "1")] [] none,
     Elem.node (hpTag "renderingInfo") []
       [Elem.node (hcTag "transMatrix") idMatrixAttrs [] none,
        Elem.node (hcTag "scaMatrix") idMatrixAttrs [] none,
        Elem.node (hcTag "rotMatrix") idMatrixAttrs [] none] none,
     Elem.node (hcTag "img")
       [("binaryItemIDRef", binaryId), ("bright", "0"), ("contrast", "0"),
        ("effect", "REAL_PIC"), ("alpha", "0")] [] none,
     Elem.node (hpTag "imgRect") []
       [Elem.node (hcTag "pt0") [("x", "0"), ("y", "0")] [] none,
        Elem.node (hcTag "pt1") [("x", intStr dispW), ("y", "0")] [] none,
        Elem.node (hcTag "pt2") [("x", intStr dispW), ("y", intStr dispH)] [] none,
        Elem.node (hcTag "pt3") [("x", "0"), ("y", intStr dispH)] [] none] none,
     Elem.node (hpTag "imgClip")
       [("left", "0"), ("right", intStr orgW), ("top", "0"), ("bottom", intStr orgH)]
       [] none,
     Elem.node (hpTag "inMargin")
       [("left", "0"), ("right", "0"), ("top", "0"), ("bottom", "0")] [] none,
     Elem.node (hpTag "imgDim")
       [("dimwidth", intStr orgW), ("dimheight", intStr orgH)] [] none,
     Elem.node (hpTag "effects") [] [] none,
     Elem.node (hpTag "sz")
       [("width", intStr dispW), ("widthRelTo", "ABSOLUTE"),
        ("height", intStr dispH), ("heightRelTo", "ABSOLUTE"), ("protect", "0")] [] none,
     Elem.node (hpTag "pos")
       [("treatAsChar", "1"), ("affectLSpacing", "0"), ("flowWithText", "1"),
        ("allowOverlap", "0"), ("holdAnchorAndSO", "0"), ("vertRelTo", "PARA"),
        ("horzRelTo", "COLUMN"), ("vertAlign", "TOP"), ("horzAlign", "LEFT"),
        ("vertOffset", "0"), ("horzOffset", "0")] [] none,
     Elem.node (hpTag "outMargin")
       [("left", "0"), ("right", "0"), ("top", "0"), ("bottom", "0")] [] none,
     Elem.node (hpTag "shapeComment") [] [] none]
    none
  (pic, idc + 2)

/-- One placed image of an image-cell row:
`(binary_id, Img, disp_w, disp_h)`. -/
structure RowItem where
  binaryId : String
  img : Img
  dispW : ℤ
  dispH : ℤ
deriving DecidableEq, Repr

/-- The pictures of one image-cell row: each consumes one stacking-order
value, and the running `max_h` of display heights (from `0`) sizes the
row's line segment. -/
def buildRowPics (env : Env) : List RowItem → ℤ → ℕ → (List Elem × ℤ × ℕ × ℤ)
  | [], z, idc => ([], z, idc, 0)
  | it :: rest, z, idc =>
    let (pic, idc') := buildPic env it.binaryId it.img it.dispW it.dispH z idc
    let (pics, z', idc'', maxH) := buildRowPics env rest (z + 1) idc'
    (pic :: pics, z', idc'', max maxH it.dispH)

/-- The image-cell paragraphs: one `hp:p` per row, each holding one run
of pictures and a line-segment sized by the row's `max_h`. -/
def buildImgParas (env : Env) (params : TemplateParams) (imgHorzsize : String) :
    List (List RowItem) → ℤ → ℕ → (List Elem × ℤ × ℕ)
  | [], z, idc => ([], z, idc)
  | row :: rest, z, idc =>
    let (pics, z', idc', maxH) := buildRowPics env row z idc
    let para := Elem.node (hpTag "p")
      [("id", "0"), ("paraPrIDRef", params.img_para_pr),
       ("styleIDRef", params.img_style_id), ("pageBreak", "0"),
       ("columnBreak", "0"), ("merged", "0")]
      [Elem.node (hpTag "run") [("charPrIDRef", params.img_char_pr)] pics none,
       Elem.node (hpTag "linesegarray") []
         [Elem.node (hpTag "lineseg")
           [("textpos", "0"), ("vertpos", "0"), ("vertsize", intStr maxH),
            ("textheight", intStr maxH),
            ("baseline", intStr (pyRound ((maxH : ℚ) * (85 / 100)))),
            ("spacing", "600"), ("horzpos", "0"), ("horzsize", imgHorzsize),
            ("flags", "393216")] [] none] none]
      none
    let (more, z'', idc'') := buildImgParas env params imgHorzsize rest z' idc'
    (para :: more, z'', idc'')

/-- The `img_horzsize` the builder reads from the title line segment. -/
def imgHorzsizeOf (params : TemplateParams) : String :=
  (((params.title_lineseg.find? (fun q => q.1 = "horzsize")).map (fun q => q.2)).getD
    "50856")

/-- The single empty paragraph of an image cell without images. -/
def emptyImgPara (params : TemplateParams) (imgHorzsize : String) : Elem :=
  Elem.node (hpTag "p")
    [("id", "0"), ("paraPrIDRef", params.img_para_pr),
     ("styleIDRef", params.img_style_id), ("pageBreak", "0"),
     ("columnBreak", "0"), ("merged", "0")]
    [Elem.node (hpTag "run") [("charPrIDRef", params.img_char_pr)] [] none,
     Elem.node (hpTag "linesegarray") []
       [Elem.node (hpTag "lineseg")
         [("textpos", "0"), ("vertpos", "0"), ("vertsize", "1000"),
          ("textheight", "1000"), ("baseline", "850"), ("spacing", "600"),
          ("horzpos", "0"), ("horzsize", imgHorzsize), ("flags", "393216")] [] none]
       none]
    none

/-- `_build_table`: the two-row one-column record table — a title row
holding the literal title text and an image row holding the image-cell
paragraphs (a single empty paragraph when there are no images).  The
table consumes one stacking-order value and one sequential id; the title
paragraph consumes one sequential id; each picture consumes one
stacking-order value and two sequential ids.  Returns the element, the
next stacking-order value, and the advanced id counter. -/
def buildTable (env : Env) (title : String) (imgRows : List (List RowItem)) (z : ℤ)
    (params : TemplateParams) (idc : ℕ) : Elem × ℤ × ℕ :=
  let m := intStr params.margin_lr
  let mt := intStr params.margin_tb
  let bf := params.border_fill_id
  let tblAttrs := [("id", natStr idc), ("zOrder", intStr z), ("numberingType", "TABLE"),
    ("textWrap", "TOP_AND_BOTTOM"), ("textFlow", "BOTH_SIDES"), ("lock", "0"),
    ("dropcapstyle", "None"), ("pageBreak", "CELL"), ("repeatHeader", "1"),
    ("rowCnt", "2"), ("colCnt", "1"), ("cellSpacing", "0"),
    ("borderFillIDRef", bf), ("noAdjust", "0")]
  let z1 := z + 1
  let om := intStr params.out_margin
  let totalH := params.title_row_h + params.img_cell_h + params.out_margin
  let szElem := Elem.node (hpTag "sz")
    [("width", intStr params.cell_w), ("widthRelTo", "ABSOLUTE"),
     ("height", intStr totalH), ("heightRelTo", "ABSOLUTE"), ("protect", "0")] [] none
  let posElem := Elem.node (hpTag "pos")
    [("treatAsChar", "1"), ("affectLSpacing", "0"), ("flowWithText", "1"),
     ("allowOverlap", "0"), ("holdAnchorAndSO", "0"), ("vertRelTo", "PARA"),
     ("horzRelTo", "COLUMN"), ("vertAlign", "TOP"), ("horzAlign", "LEFT"),
     ("vertOffset", intStr params.vert_offset), ("horzOffset", "0")] [] none
  let outM := Elem.node (hpTag "outMargin")
    [("left", om), ("right", om), ("top", om), ("bottom", om)] [] none
  let inM := Elem.node (hpTag "inMargin")
    [("left", m), ("right", m), ("top", mt), ("bottom", mt)] [] none
  let titleP := Elem.node (hpTag "p")
    [("id", natStr (idc + 1)), ("paraPrIDRef", params.title_para_pr),
     ("styleIDRef", params.title_style_id), ("pageBreak", "0"),
     ("columnBreak", "0"), ("merged", "0")]
    [Elem.node (hpTag "run") [("charPrIDRef", params.title_char_pr)]
       [Elem.node (hpTag "t") [] [] (some title)] none,
     Elem.node (hpTag "linesegarray") []
       [Elem.node (hpTag "lineseg") params.title_lineseg [] none] none]
    none
  let tc1 := Elem.node (hpTag "tc")
    [("name", ""), ("header", "0"), ("hasMargin", "0"), ("protect", "0"),
     ("editable", "0"), ("dirty", "0"), ("borderFillIDRef", bf)]
    [Elem.node (hpTag "subList")
       [("id", ""), ("textDirection", "HORIZONTAL"), ("lineWrap", "BREAK"),
        ("vertAlign", "CENTER"), ("linkListIDRef", "0"), ("linkListNextIDRef", "0"),
        ("textWidth", "0"), ("textHeight", "0"), ("hasTextRef", "0"), ("hasNumRef", "0")]
       [titleP] none,
     Elem.node (hpTag "cellAddr") [("colAddr", "0"), ("rowAddr", "0")] [] none,
     Elem.node (hpTag "cellSpan") [("colSpan", "1"), ("rowSpan", "1")] [] none,
     Elem.node (hpTag "cellSz")
       [("width", intStr params.cell_w), ("height", intStr params.title_row_h)] [] none,
     Elem.node (hpTag "cellMargin")
       [("left", m), ("right", m), ("top", mt), ("bottom", mt)] [] none]
    none
  let tr1 := Elem.node (hpTag "tr") [] [tc1] none
  let imgHorzsize := imgHorzsizeOf params
  let built :=
    match imgRows with
    | [] => ([emptyImgPara params imgHorzsize], z1, idc + 2)
    | _ => buildImgParas env params imgHorzsize imgRows z1 (idc + 2)
  let tc2 := Elem.node (hpTag "tc")
    [("name", ""), ("header", "0"), ("hasMargin", "0"), ("protect", "0"),
     ("editable", "0"), ("dirty", "0"), ("borderFillIDRef", bf)]
    [Elem.node (hpTag "subList")
       [("id", ""), ("textDirection", "HORIZONTAL"), ("lineWrap", "BREAK"),
        ("vertAlign", "CENTER"), ("linkListIDRef", "0"), ("linkListNextIDRef", "0"),
        ("textWidth", "0"), ("textHeight", "0"), ("hasTextRef", "0"), ("hasNumRef", "0")]
       built.1 none,
     Elem.node (hpTag "cellAddr") [("colAddr", "0"), ("rowAddr", "1")] [] none,
     Elem.node (hpTag "cellSpan") [("colSpan", "1"), ("rowSpan", "1")] [] none,
     Elem.node (hpTag "cellSz")
       [("width", intStr params.cell_w), ("height", intStr params.img_cell_h)] [] none,
     Elem.node (hpTag "cellMargin")
       [("left", m), ("right", m), ("top", mt), ("bottom", mt)] [] none]
    none
  let tr2 := Elem.node (hpTag "tr") [] [tc2] none
  (Elem.node (hpTag "tbl") tblAttrs [szElem, posElem, outM, inM, tr1, tr2] none,
   built.2.1, built.2.2)

/-- The `hp:p > hp:run > hp:tbl` wrapper paragraph around one record
table (the template's own block pattern). -/
def wrapBlock (params : TemplateParams) (tbl : Elem) : Elem :=
  Elem.node (hpTag "p")
    [("id", "0"), ("paraPrIDRef", params.wrap_para_pr), ("styleIDRef", "0"),
     ("pageBreak", "0"), ("columnBreak", "0"), ("merged", "0")]
    [Elem.node (hpTag "run") [("charPrIDRef", params.wrap_char_pr)]
       [tbl, Elem.node (hpTag "t") [] [] none] none,
     Elem.node (hpTag "linesegarray") []
       [Elem.node (hpTag "lineseg") params.wrap_lineseg [] none] none]
    none

/-! ## `ledger/hwp/hwp_generator_xml.py` — the record loop and `run` -/

/-- The raw `img_paths` cell of one DataFrame row, as the source's
normalisation distinguishes it: a list, `None`, a plain string, another
iterable accepted by `list(...)`, or a non-iterable value on which
`list(...)` raises `TypeError`. -/
inductive RawPaths : Type where
  | listV (xs : List String)
  | noneV
  | strV (s : String)
  | iterV (xs : List String)
  | badV
deriving DecidableEq, Repr

/-- The `img_paths` normalisation at the top of the record loop. -/
def normalizePaths : RawPaths → List String
  | .listV xs => xs
  | .noneV => []
  | .strV s => [s]
  | .iterV xs => xs
  | .badV => []

/-- One row yielded by `data.iterrows()`: the DataFrame index label, the
`종류` (expense kind) column, and the raw `img_paths` cell. -/
structure DataRow where
  dataIdx : ℕ
  kind : String
  imgPaths : RawPaths
deriving DecidableEq, Repr

/-- The record title `f'{data_idx + 1}. {row["종류"]}'`. -/
def rowTitle (r : DataRow) : String := natStr (r.dataIdx + 1) ++ ". " ++ r.kind

/-- The warnings the record loop prints (modelled structurally; the
number is the printed `data_idx + 1`). -/
inductive LogEntry : Type where
  | imgLoadFail (printedIdx : ℕ) (path : String)
  | noValidImages (printedIdx : ℕ)
  | layoutFail (printedIdx : ℕ)
  | imgReadFail (printedIdx : ℕ) (path : String)
  | missingAttachment (printedIdx : ℕ)
deriving DecidableEq, Repr

/-- The mutable state the record loop threads: the body's top-level
children, the running insertion index, the stacking-order counter, the
binary-asset counter, the module-level sequential id counter, the new
binaries dictionary (insertion order), and the warnings printed so
far. -/
structure LoopState where
  children : List Elem
  insertIdx : ℕ
  z : ℤ
  binCounter : ℤ
  idc : ℕ
  newBinaries : List (String × String)
  log : List LogEntry

/-- The per-record image loading loop: `Img(p)` for each path, dropping
(with a warning) every path on which PIL raises. -/
def loadImgs (env : Env) (paths : List String) (printedIdx : ℕ) (log : List LogEntry) :
    List Img × List LogEntry :=
  match paths with
  | [] => ([], log)
  | p :: rest =>
    match env p with
    | some spec =>
      let (more, log') := loadImgs env rest printedIdx log
      (Img.mk p spec.w spec.h :: more, log')
    | none => loadImgs env rest printedIdx (log ++ [.imgLoadFail printedIdx p])

instance : Inhabited Img := ⟨⟨"", 0, 0⟩⟩

instance : Inhabited LayoutItem := ⟨⟨0, "", (0, 0)⟩⟩

/-- The inner `for c_idx in range(cols_n)` of the record loop: allocate a
binary id, read the file bytes (a failed read rolls the counter back and
skips the image with a warning), convert the display size to HWP units,
and collect the row's items; the loop breaks at the first index beyond
the item list. -/
def packRow (env : Env) (imgs : List Img) (items : List LayoutItem)
    (colsN rIdx printedIdx : ℕ) (cIdx : ℕ) (binCounter : ℤ)
    (newBins : List (String × String)) (log : List LogEntry) :
    List RowItem × ℤ × List (String × String) × List LogEntry :=
  if _hc : cIdx < colsN then
    let i := rIdx * colsN + cIdx
    if i < items.length then
      let item := items.getD i default
      let img := imgs.getD item.idx default
      let ext := extOf img.path
      let bid := "image" ++ intStr binCounter
      match (env img.path).bind (fun s => s.bytes) with
      | some bs =>
        let (rest, bc', nb', log') := packRow env imgs items colsN rIdx printedIdx
          (cIdx + 1) (binCounter + 1)
          (dictSet newBins ("BinData/" ++ bid ++ "." ++ ext) bs) log
        let dispW := pyRound (item.size.1 * HWP_PER_MM)
        let dispH := pyRound (item.size.2 * HWP_PER_MM)
        (⟨bid, img, dispW, dispH⟩ :: rest, bc', nb', log')
      | none =>
        -- `bin_counter += 1` immediately undone by `bin_counter -= 1`
        packRow env imgs items colsN rIdx printedIdx (cIdx + 1) (binCounter + 1 - 1)
          newBins (log ++ [.imgReadFail printedIdx img.path])
    else ([], binCounter, newBins, log)
  else ([], binCounter, newBins, log)
termination_by colsN - cIdx

/-- The outer `for r_idx in range(rows_n)` of the record loop: one list of
row items per grid row, empty rows skipped. -/
def packGrid (env : Env) (imgs : List Img) (items : List LayoutItem)
    (rowsN colsN printedIdx : ℕ) (rIdx : ℕ) (binCounter : ℤ)
    (newBins : List (String × String)) (log : List LogEntry) :
    List (List RowItem) × ℤ × List (String × String) × List LogEntry :=
  if _hr : rIdx < rowsN then
    let (rowItems, bc', nb', log') :=
      packRow env imgs items colsN rIdx printedIdx 0 binCounter newBins log
    let (rest, bc'', nb'', log'') :=
      packGrid env imgs items rowsN colsN printedIdx (rIdx + 1) bc' nb' log'
    ((if rowItems.isEmpty then rest else rowItems :: rest), bc'', nb'', log'')
  else ([], binCounter, newBins, log)
termination_by rowsN - rIdx

/-- One iteration of `for data_idx, row in data.iterrows()`, first half:
normalise the paths, load the images (dropping failures), lay them out,
and pack the grid into rows of placed items, threading the binary
counter, the new-binaries dictionary and the log. -/
def recordImgRows (env : Env) (params : TemplateParams) (row : DataRow)
    (binCounter : ℤ) (newBins : List (String × String)) (log : List LogEntry) :
    List (List RowItem) × ℤ × List (String × String) × List LogEntry :=
  let imgPaths := normalizePaths row.imgPaths
  let printedIdx := row.dataIdx + 1
  if imgPaths.isEmpty then
    ([], binCounter, newBins, log ++ [.missingAttachment printedIdx])
  else
    let loaded := loadImgs env imgPaths printedIdx log
    let imgs := loaded.1
    let log1 := loaded.2
    if imgs.isEmpty then
      ([], binCounter, newBins, log1 ++ [.noValidImages printedIdx])
    else
      match layout imgs params.imgWmm params.imgHmm with
      | some lr =>
        if lr.items.isEmpty then
          -- `layout and layout.items` is false although `_layout` returned a result
          ([], binCounter, newBins, log1 ++ [.layoutFail printedIdx])
        else
          match lr.grid with
          | some g =>
            packGrid env imgs lr.items g.1 g.2 printedIdx 0 binCounter newBins log1
          | none =>
            -- unreachable: a result with items always carries its grid
            ([], binCounter, newBins, log1)
      | none => ([], binCounter, newBins, log1 ++ [.layoutFail printedIdx])

/-- One iteration body continued: build the record table from the packed
rows, wrap it, and insert the wrapper at the running insertion index. -/
def processRecord (env : Env) (params : TemplateParams) (row : DataRow)
    (st : LoopState) : LoopState :=
  let step := recordImgRows env params row st.binCounter st.newBinaries st.log
  let built := buildTable env (rowTitle row) step.1 st.z params st.idc
  let pWrap := wrapBlock params built.1
  { children := pyInsert st.children st.insertIdx pWrap,
    insertIdx := st.insertIdx + 1,
    z := built.2.1,
    binCounter := step.2.1,
    idc := built.2.2,
    newBinaries := step.2.2.1,
    log := step.2.2.2 }

/-- The whole record loop, in input order. -/
def processRecords (env : Env) (params : TemplateParams) :
    List DataRow → LoopState → LoopState
  | [], st => st
  | r :: rs, st => processRecords env params rs (processRecord env params r st)

/-- What a successful `run` writes and prints: the output archive entries
in order, the final body tree (serialised into `Contents/section0.xml`),
and the warnings. -/
structure RunOutput where
  files : List (String × Content)
  body : Elem
  newBinaries : List (String × String)
  log : List LogEntry

/-- `run(data, t_path, o_path)`.  `idcInit` is the value the module-level
id counter holds when `run` starts (left by previous calls); `run`
resets it to `idCounterSeed` first.  The returned pair is the result —
`Except.error` models raising with no output file written, `Except.ok`
the written archive — together with the id counter's final value. -/
def run (idcInit : ℕ) (data : List DataRow) (tpl : Template) (env : Env) :
    Except RunError RunOutput × ℕ :=
  -- 0. reset the sequential id counter (`_reset_id_counter`)
  let idc0 := idCounterSeed
  -- 1. the template must be a zip archive
  if tpl.isZip = false then (.error (.valueError .notZipFormat), idc0)
  else
    let zipFiles := tpl.files
    -- 2. both required parts must be present
    match lookupD zipFiles SEC_KEY with
    | none => (.error (.valueError .missingSection), idc0)
    | some secC =>
      match lookupD zipFiles HPF_KEY with
      | none => (.error (.valueError .missingManifestPart), idc0)
      | some _ =>
        -- 3. parse the body
        match parseXmlContent secC with
        | .error e => (.error e, idc0)
        | .ok root =>
          -- 4. locate and remove the existing record blocks
          let expensePs := findExpensePs root
          match readTemplateParams expensePs with
          | .error e => (.error e, idc0)
          | .ok params =>
            let insertIdx := match expensePs with
              | [] => root.children.length
              | p0 :: _ => indexOfElem root.children p0
            match removeAll root.children expensePs with
            | none => (.error (.valueError .removeMissing), idc0)
            | some children' =>
              let root' := Elem.node root.tag root.attrs children' root.txt
              -- 5. seed the stacking-order and binary counters
              match maxZOrder root' with
              | .error e => (.error e, idc0)
              | .ok mz =>
                let st0 : LoopState :=
                  ⟨children', insertIdx, mz + 1, maxBinaryIdx zipFiles + 1, idc0, [], []⟩
                -- 6. one block per record
                let st := processRecords env params data st0
                -- 7. serialise the body back into the archive
                let finalRoot := Elem.node root.tag root.attrs st.children root.txt
                let zipFiles1 := dictSet zipFiles SEC_KEY (.xml finalRoot)
                let zipFiles2 := st.newBinaries.foldl
                  (fun zf nb => dictSet zf nb.1 (.bin nb.2)) zipFiles1
                -- 8. register the new binaries in the manifest
                if st.newBinaries.isEmpty then
                  (.ok ⟨zipFiles2, finalRoot, st.newBinaries, st.log⟩, st.idc)
                else
                  match lookupD zipFiles2 HPF_KEY with
                  | none =>
                    -- unreachable: the part was checked present and never removed
                    (.error (.valueError .manifestNotFound), st.idc)
                  | some hpfC =>
                    match updateContentHpf hpfC st.newBinaries with
                    | .error e => (.error e, st.idc)
                    | .ok hpf' =>
                      -- 9. write the archive
                      (.ok ⟨dictSet zipFiles2 HPF_KEY hpf', finalRoot, st.newBinaries, st.log⟩,
                        st.idc)

/-! ## Derived notions used by the theorems -/

/-- A top-level paragraph `_find_expense_ps` recognises: an `hp:p` with at
least one matching run. -/
def isExpenseP (p : Elem) : Bool :=
  p.tag = hpTag "p" ∧ p.children.any (fun r => r.tag = hpTag "run" ∧ r.children.any isRecordTbl)

/-- The title text of a record block: the text of
`p > run > tbl > tr[0] > tc > subList > p > run > t`. -/
def blockTitle (blk : Elem) : Option String :=
  match blk.findTag (hpTag "run") with
  | none => none
  | some r =>
    match r.findTag (hpTag "tbl") with
    | none => none
    | some tbl =>
      match tbl.findTag (hpTag "tr") with
      | none => none
      | some tr =>
        match tr.findTag (hpTag "tc") with
        | none => none
        | some tc =>
          match tc.findTag (hpTag "subList") with
          | none => none
          | some sl =>
            match sl.findTag (hpTag "p") with
            | none => none
            | some para =>
              match para.findTag (hpTag "run") with
              | none => none
              | some r2 =>
                match r2.findTag (hpTag "t") with
                | none => none
                | some t => t.txt

/-- The paragraphs of a record block's image cell:
`p > run > tbl`'s second `tr`, then `tc > subList`'s children. -/
def imageCellParas (blk : Elem) : Option (List Elem) :=
  match blk.findTag (hpTag "run") with
  | none => none
  | some r =>
    match r.findTag (hpTag "tbl") with
    | none => none
    | some tbl =>
      match tbl.findAllTag (hpTag "tr") with
      | _ :: tr2 :: _ =>
        match tr2.findTag (hpTag "tc") with
        | none => none
        | some tc =>
          match tc.findTag (hpTag "subList") with
          | none => none
          | some sl => some sl.children
      | _ => none

/-- The archive entry name of a new binary asset. -/
def mkBinName (n : ℤ) (ext : String) : String :=
  "BinData/" ++ ("image" ++ intStr n) ++ "." ++ ext

/-- The loop state `run` starts the record loop with: the surviving
children, the remembered insertion index, the seeded stacking-order and
binary counters, the reset id counter, and empty binaries/log. -/
def runInitState (root : Elem) (tplFiles : List (String × Content)) (mz : ℤ) : LoopState :=
  ⟨root.children.filter (fun x => !(isExpenseP x)),
   (match findExpensePs root with
    | [] => root.children.length
    | p0 :: _ => indexOfElem root.children p0),
   mz + 1, maxBinaryIdx tplFiles + 1, idCounterSeed, [], []⟩

instance : Inhabited Elem := ⟨.node ⟨"", ""⟩ [] [] none⟩

instance : Inhabited DataRow := ⟨⟨0, "", .noneV⟩⟩

/-! ## `hwp/image_packer.py` — `Img.__init__`'s effect on the file system -/

/-- A stored image file as PIL sees it: pixel size as encoded, an
optional EXIF orientation tag, and whether any other EXIF metadata is
present. -/
structure PilImage where
  pixW : ℕ
  pixH : ℕ
  orientation : Option ℕ
  otherExif : Bool
deriving DecidableEq, Repr

/-- `ImageOps.exif_transpose(im)`: bake the EXIF orientation into the
pixel data (orientations 5–8 swap the axes) and drop the orientation
tag. -/
def exifTranspose (im : PilImage) : PilImage :=
  match im.orientation with
  | none => { im with orientation := none }
  | some o =>
    if 5 ≤ o ∧ o ≤ 8 then
      { pixW := im.pixH, pixH := im.pixW, orientation := none, otherExif := im.otherExif }
    else
      { im with orientation := none }

/-- A file store for image files. -/
def ImgFS : Type := String → Option PilImage

/-- `Img.__init__(path)`:
`ImageOps.exif_transpose(Image.open(path)).save(path, exif=b"")` followed
by re-opening for the size.  Returns the constructed `Img`, the updated
store, and the list of paths written.  `none` models the constructor
raising (unreadable path). -/
def imgInit (fs : ImgFS) (path : String) : Option (Img × ImgFS × List String) :=
  match fs path with
  | none => none
  | some im =>
    let saved : PilImage :=
      { exifTranspose im with otherExif := false }   -- `.save(path, exif=b"")`
    let fs' : ImgFS := fun q => if q = path then some saved else fs q
    some (⟨path, (saved.pixW : ℚ), (saved.pixH : ℚ)⟩, fs', [path])

/-! ## Concrete template fixtures (used by witnesses) -/

/-- A minimal two-row one-column record table. -/
def wTbl : Elem := Elem.node (hpTag "tbl") [("rowCnt", "2"), ("colCnt", "1")] [] none

/-- A run containing the record table. -/
def wRun : Elem := Elem.node (hpTag "run") [] [wTbl] none

/-- A recognisable record-block paragraph. -/
def wP0 : Elem := Elem.node (hpTag "p") [] [wRun] none

/-- A plain paragraph (not a record block). -/
def wPlain : Elem := Elem.node (hpTag "p") [] [] none

/-- A body with one plain paragraph followed by one record block. -/
def wRoot : Elem := Elem.node ⟨"hs", "sec"⟩ [] [wPlain, wP0] none

/-- A body with no record block. -/
def wRootNoBlk : Elem := Elem.node ⟨"hs", "sec"⟩ [] [wPlain] none

/-- A manifest element. -/
def wMan : Elem := Elem.node ⟨"opf", "manifest"⟩ [] [] none

/-- A `content.hpf` root holding the manifest. -/
def wHpf : Elem := Elem.node ⟨"opf", "package"⟩ [] [wMan] none

/-- A valid archive with both required parts. -/
def wTpl : Template := ⟨true, [(SEC_KEY, Content.xml wRoot), (HPF_KEY, Content.xml wHpf)]⟩

/-- A valid archive whose body holds no record block. -/
def wTplNoBlk : Template :=
  ⟨true, [(SEC_KEY, Content.xml wRootNoBlk), (HPF_KEY, Content.xml wHpf)]⟩

/-- A `content.hpf` root with no manifest element. -/
def wHpfNoMan : Elem := Elem.node ⟨"opf", "package"⟩ [] [] none

/-- A valid archive whose manifest part lacks a manifest element. -/
def wTplNoMan : Template :=
  ⟨true, [(SEC_KEY, Content.xml wRoot), (HPF_KEY, Content.xml wHpfNoMan)]⟩

/-- A record block whose `hp:pos` carries the non-numeric `vertOffset="x"`. -/
def wPbad : Elem :=
  Elem.node (hpTag "p") []
    [Elem.node (hpTag "run") []
      [Elem.node (hpTag "tbl") [("rowCnt", "2"), ("colCnt", "1")]
        [Elem.node (hpTag "pos") [("vertOffset", "x")] [] none] none] none]
    none

/-- A body whose only record block carries the malformed attribute. -/
def wRootBad : Elem := Elem.node ⟨"hs", "sec"⟩ [] [wPbad] none

/-- A valid archive (both parts present, manifest present) whose template
block carries a malformed numeric attribute. -/
def wTplBad : Template :=
  ⟨true, [(SEC_KEY, Content.xml wRootBad), (HPF_KEY, Content.xml wHpf)]⟩

/-! ## Layout engine lemmas -/

theorem layoutCandidate_items_length (imgs : List Img) (cw ch : ℚ) (cols : ℕ) :
    (layoutCandidate imgs cw ch cols).items.length = imgs.length := by
  simp [layoutCandidate, List.enum_length]

theorem layoutCandidate_area_eq (imgs : List Img) (cw ch : ℚ) (cols : ℕ) :
    (layoutCandidate imgs cw ch cols).area
      = ((layoutCandidate imgs cw ch cols).items.map (fun it => it.size.1 * it.size.2)).sum :=
  rfl

theorem layoutCandidate_mem_items {imgs : List Img} {cw ch : ℚ} {cols : ℕ} {it : LayoutItem}
    (h : it ∈ (layoutCandidate imgs cw ch cols).items) :
    ∃ img, img ∈ imgs ∧ ∃ s : ℚ,
      s ≤ (cw / (cols : ℚ)) / img.w ∧
      s ≤ (ch / ((pyCeilDiv imgs.length cols) : ℚ)) / img.h ∧
      it.size = (img.w * s, img.h * s) := by
  simp only [layoutCandidate, List.mem_map] at h
  obtain ⟨p, hmem, rfl⟩ := h
  refine ⟨p.2, ?_, ?_⟩
  · have hs := List.enum_map_snd imgs
    exact hs ▸ List.mem_map_of_mem Prod.snd hmem
  · exact ⟨_, le_trans (min_le_right _ _) (min_le_left _ _),
      le_trans (min_le_right _ _) (min_le_right _ _), rfl⟩

theorem layoutCandidate_area_nonneg {imgs : List Img}
    (hpos : ∀ img ∈ imgs, 0 < img.w ∧ 0 < img.h) (cw ch : ℚ) (cols : ℕ) :
    0 ≤ (layoutCandidate imgs cw ch cols).area := by
  rw [layoutCandidate_area_eq]
  apply List.sum_nonneg
  intro x hx
  simp only [List.mem_map] at hx
  obtain ⟨it, hit, rfl⟩ := hx
  obtain ⟨img, himg, s, _, _, hsize⟩ := layoutCandidate_mem_items hit
  rw [hsize]
  have hw := hpos img himg
  have hcalc : (img.w * s) * (img.h * s) = (img.w * img.h) * s ^ 2 := by ring
  simp only
  rw [hcalc]
  exact mul_nonneg (mul_pos hw.1 hw.2).le (sq_nonneg s)

theorem layoutCandidate_items_idx (imgs : List Img) (cw ch : ℚ) (cols : ℕ) :
    (layoutCandidate imgs cw ch cols).items.map (fun it => it.idx)
      = List.range imgs.length := by
  have h1 : (layoutCandidate imgs cw ch cols).items.map (fun it => it.idx)
      = imgs.enum.map Prod.fst := by
    simp only [layoutCandidate, List.map_map]
    rfl
  rw [h1, List.enum_map_fst]

theorem layoutCandidate_grid (imgs : List Img) (cw ch : ℚ) (cols : ℕ) :
    (layoutCandidate imgs cw ch cols).grid
      = some (pyCeilDiv imgs.length cols, cols) :=
  rfl

theorem layoutFold_eq_best_or_mem (imgs : List Img) (cw ch : ℚ) :
    ∀ (l : List ℕ) (best : LayoutResult),
      layoutFold imgs cw ch best l = best ∨
      ∃ cols ∈ l, layoutFold imgs cw ch best l = layoutCandidate imgs cw ch cols := by
  intro l
  induction l with
  | nil => exact fun best => Or.inl rfl
  | cons c rest ih =>
    intro best
    simp only [layoutFold]
    rcases ih (if (layoutCandidate imgs cw ch c).items.length = imgs.length ∧
        best.area < (layoutCandidate imgs cw ch c).area
      then layoutCandidate imgs cw ch c else best) with h | ⟨cols, hm, he⟩
    · rw [h]
      by_cases hc : (layoutCandidate imgs cw ch c).items.length = imgs.length ∧
          best.area < (layoutCandidate imgs cw ch c).area
      · rw [if_pos hc]
        exact Or.inr ⟨c, List.mem_cons_self c rest, rfl⟩
      · rw [if_neg hc]
        exact Or.inl rfl
    · exact Or.inr ⟨cols, List.mem_cons_of_mem c hm, he⟩

theorem layoutFold_area_ge_best (imgs : List Img) (cw ch : ℚ) :
    ∀ (l : List ℕ) (best : LayoutResult),
      best.area ≤ (layoutFold imgs cw ch best l).area := by
  intro l
  induction l with
  | nil => exact fun best => le_refl _
  | cons c rest ih =>
    intro best
    simp only [layoutFold]
    refine le_trans ?_ (ih _)
    by_cases hc : (layoutCandidate imgs cw ch c).items.length = imgs.length ∧
        best.area < (layoutCandidate imgs cw ch c).area
    · rw [if_pos hc]; exact le_of_lt hc.2
    · rw [if_neg hc]

theorem layoutFold_area_ge_cand (imgs : List Img) (cw ch : ℚ) :
    ∀ (l : List ℕ) (best : LayoutResult) (cols : ℕ), cols ∈ l →
      (layoutCandidate imgs cw ch cols).area ≤ (layoutFold imgs cw ch best l).area := by
  intro l
  induction l with
  | nil => intro _ _ h; cases h
  | cons c rest ih =>
    intro best cols hmem
    rcases List.mem_cons.mp hmem with rfl | hmem'
    · simp only [layoutFold]
      refine le_trans ?_ (layoutFold_area_ge_best imgs cw ch rest _)
      by_cases hc : (layoutCandidate imgs cw ch cols).items.length = imgs.length ∧
          best.area < (layoutCandidate imgs cw ch cols).area
      · rw [if_pos hc]
      · rw [if_neg hc]
        rcases not_and_or.mp hc with h | h
        · exact absurd (layoutCandidate_items_length imgs cw ch cols) h
        · exact not_lt.mp h
    · simp only [layoutFold]
      exact ih _ cols hmem'

theorem one_mem_layoutCols {n : ℕ} (hn : n ≠ 0) : 1 ∈ layoutCols n := by
  simp only [layoutCols, List.mem_range']
  refine ⟨0, ?_, by omega⟩
  omega

theorem layout_eq_some {imgs : List Img} (cw ch : ℚ) (hne : imgs ≠ [])
    (hpos : ∀ img ∈ imgs, 0 < img.w ∧ 0 < img.h) :
    ∃ cols ∈ layoutCols imgs.length,
      layout imgs cw ch = some (layoutCandidate imgs cw ch cols)
        ∧ layoutFold imgs cw ch {} (layoutCols imgs.length)
            = layoutCandidate imgs cw ch cols := by
  have hn : imgs.length ≠ 0 := fun h => hne (List.length_eq_zero.mp h)
  rcases layoutFold_eq_best_or_mem imgs cw ch (layoutCols imgs.length) {} with h | ⟨cols, hm, he⟩
  · exfalso
    have h2 := layoutFold_area_ge_cand imgs cw ch (layoutCols imgs.length) {} 1
      (one_mem_layoutCols hn)
    rw [h] at h2
    have h3 := layoutCandidate_area_nonneg hpos cw ch 1
    have hd : ({} : LayoutResult).area = -1 := rfl
    rw [hd] at h2
    linarith
  · refine ⟨cols, hm, ?_, he⟩
    simp only [layout]
    rw [if_neg hn, he, if_pos (layoutCandidate_items_length imgs cw ch cols)]

theorem layoutFold_area_eq_max (imgs : List Img) (cw ch : ℚ) :
    ∀ (l : List ℕ) (best : LayoutResult),
      (layoutFold imgs cw ch best l).area
        = (l.map (layoutCandidate imgs cw ch)).foldl (fun a x => max a x.area) best.area := by
  intro l
  induction l with
  | nil => intro best; rfl
  | cons c rest ih =>
    intro best
    simp only [layoutFold, List.map_cons, List.foldl_cons]
    rw [ih]
    congr 1
    by_cases hc : (layoutCandidate imgs cw ch c).items.length = imgs.length ∧
        best.area < (layoutCandidate imgs cw ch c).area
    · rw [if_pos hc, max_eq_right hc.2.le]
    · rw [if_neg hc]
      rcases not_and_or.mp hc with h | h
      · exact absurd (layoutCandidate_items_length imgs cw ch c) h
      · rw [max_eq_left (not_lt.mp h)]

theorem layoutFold_find_first (imgs : List Img) (cw ch : ℚ) :
    ∀ (l : List ℕ) (best : LayoutResult),
      layoutFold imgs cw ch best l = best ∨
      ((l.map (layoutCandidate imgs cw ch)).find?
          (fun r => decide (r.area = (layoutFold imgs cw ch best l).area))
            = some (layoutFold imgs cw ch best l)
        ∧ best.area < (layoutFold imgs cw ch best l).area) := by
  intro l
  induction l with
  | nil => exact fun best => Or.inl rfl
  | cons c rest ih =>
    intro best
    by_cases hc : (layoutCandidate imgs cw ch c).items.length = imgs.length ∧
        best.area < (layoutCandidate imgs cw ch c).area
    · -- the head candidate replaces the running best
      have hstep : layoutFold imgs cw ch best (c :: rest)
          = layoutFold imgs cw ch (layoutCandidate imgs cw ch c) rest := by
        simp only [layoutFold]
        rw [if_pos hc]
      rcases ih (layoutCandidate imgs cw ch c) with h | ⟨hfind, hlt⟩
      · -- the tail never improves on the head candidate
        rw [hstep, h]
        refine Or.inr ⟨?_, hc.2⟩
        simp only [List.map_cons]
        exact List.find?_cons_of_pos _ (by simp)
      · rw [hstep]
        refine Or.inr ⟨?_, lt_trans hc.2 hlt⟩
        simp only [List.map_cons]
        rw [List.find?_cons_of_neg _ (by simp; exact ne_of_lt hlt)]
        exact hfind
    · have hstep : layoutFold imgs cw ch best (c :: rest)
          = layoutFold imgs cw ch best rest := by
        simp only [layoutFold]
        rw [if_neg hc]
      have hle : (layoutCandidate imgs cw ch c).area ≤ best.area := by
        rcases not_and_or.mp hc with h | h
        · exact absurd (layoutCandidate_items_length imgs cw ch c) h
        · exact not_lt.mp h
      rcases ih best with h | ⟨hfind, hlt⟩
      · rw [hstep, h]; exact Or.inl rfl
      · rw [hstep]
        refine Or.inr ⟨?_, hlt⟩
        simp only [List.map_cons]
        rw [List.find?_cons_of_neg _ (by simp; exact ne_of_lt (lt_of_le_of_lt hle hlt))]
        exact hfind

/-- C1: for every non-empty list of images with positive pixel dimensions
and a fixed container area, `_layout` returns a non-null result that
places all `n` images (the item indices are exactly `0 .. n-1`), whose
items never exceed the chosen candidate's cell width `cw / cols` or cell
height `ch / rows`, and whose total displayed area is at least that of
the single-column (`cols = 1`) candidate; for the empty list it returns
`none`. -/
theorem claim_C1 (imgs : List Img) (cw ch : ℚ)
    (hpos : ∀ img ∈ imgs, 0 < img.w ∧ 0 < img.h) :
    (layout ([] : List Img) cw ch = none) ∧
    (imgs ≠ [] →
      ∃ r, layout imgs cw ch = some r ∧
        r.items.map (fun it => it.idx) = List.range imgs.length ∧
        (∃ cols rows, r.grid = some (rows, cols) ∧
          ∀ it ∈ r.items,
            it.size.1 ≤ cw / (cols : ℚ) ∧ it.size.2 ≤ ch / (rows : ℚ)) ∧
        (layoutCandidate imgs cw ch 1).area ≤ r.area) := by
  constructor
  · rfl
  · intro hne
    obtain ⟨cols, hm, hsome, hfold⟩ := layout_eq_some cw ch hne hpos
    refine ⟨layoutCandidate imgs cw ch cols, hsome, layoutCandidate_items_idx imgs cw ch cols,
      ⟨cols, pyCeilDiv imgs.length cols, layoutCandidate_grid imgs cw ch cols, ?_⟩, ?_⟩
    · intro it hit
      obtain ⟨img, himg, s, hs1, hs2, hsize⟩ := layoutCandidate_mem_items hit
      have hw := (hpos img himg).1
      have hh := (hpos img himg).2
      constructor
      · have : it.size.1 = img.w * s := by rw [hsize]
        rw [this]
        calc img.w * s ≤ img.w * ((cw / (cols : ℚ)) / img.w) :=
              mul_le_mul_of_nonneg_left hs1 hw.le
          _ = cw / (cols : ℚ) := by
              rw [mul_comm]
              exact div_mul_cancel₀ _ (ne_of_gt hw)
      · have : it.size.2 = img.h * s := by rw [hsize]
        rw [this]
        calc img.h * s ≤ img.h * ((ch / ((pyCeilDiv imgs.length cols) : ℚ)) / img.h) :=
              mul_le_mul_of_nonneg_left hs2 hh.le
          _ = ch / ((pyCeilDiv imgs.length cols) : ℚ) := by
              rw [mul_comm]
              exact div_mul_cancel₀ _ (ne_of_gt hh)
    · have := layoutFold_area_ge_cand imgs cw ch (layoutCols imgs.length) {} 1
        (one_mem_layoutCols (fun h => hne (List.length_eq_zero.mp h)))
      rw [hfold] at this
      exact this

theorem claim_C1_witness :
    (∀ img ∈ [Img.mk "a" 2 3], 0 < img.w ∧ 0 < img.h) ∧
    ((layout ([] : List Img) 4 5 = none) ∧
      ([Img.mk "a" 2 3] ≠ [] →
        ∃ r, layout [Img.mk "a" 2 3] 4 5 = some r ∧
          r.items.map (fun it => it.idx) = List.range [Img.mk "a" 2 3].length ∧
          (∃ cols rows, r.grid = some (rows, cols) ∧
            ∀ it ∈ r.items,
              it.size.1 ≤ 4 / (cols : ℚ) ∧ it.size.2 ≤ 5 / (rows : ℚ)) ∧
          (layoutCandidate [Img.mk "a" 2 3] 4 5 1).area ≤ r.area)) :=
  ⟨by decide, claim_C1 [Img.mk "a" 2 3] 4 5 (by decide)⟩

/-- C2: `_layout` implements exactly the specified selection rule: it
iterates the candidate column counts `1 .. min(n, 5)`, each candidate
built from `rows = ceil(n/c)`, `cell_w = cw/c`, `cell_h = ch/rows`, the
median (index `n // 2` of the ascending sort) of the per-image maximum
scales, and per-image scale `min(median, own max)`; among the eligible
candidates it keeps the earliest one attaining the strictly largest
total displayed area. -/
theorem claim_C2 (imgs : List Img) (cw ch : ℚ)
    (hpos : ∀ img ∈ imgs, 0 < img.w ∧ 0 < img.h) :
    layout imgs cw ch = layoutSpec imgs cw ch := by
  by_cases hn : imgs.length = 0
  · simp only [layout, layoutSpec]
    rw [if_pos hn, if_pos hn]
  · have hne : imgs ≠ [] := fun h => hn (by rw [h]; rfl)
    obtain ⟨cols, hm, hsome, hfold⟩ := layout_eq_some cw ch hne hpos
    have helig : ((layoutCols imgs.length).map (layoutCandidate imgs cw ch)).filter
        (fun r => decide (r.items.length = imgs.length))
        = (layoutCols imgs.length).map (layoutCandidate imgs cw ch) := by
      rw [List.filter_eq_self]
      intro r hr
      obtain ⟨cols', hmm, hh⟩ := List.mem_map.mp hr
      rw [← hh]
      simp [layoutCandidate_items_length]
    have hmem1 : layoutCandidate imgs cw ch 1
        ∈ (layoutCols imgs.length).map (layoutCandidate imgs cw ch) :=
      List.mem_map_of_mem _ (one_mem_layoutCols hn)
    have hcne : (layoutCols imgs.length).map (layoutCandidate imgs cw ch) ≠ [] := by
      intro h
      rw [h] at hmem1
      cases hmem1
    rw [hsome]
    simp only [layoutSpec]
    rw [if_neg hn, helig]
    have hE : ((layoutCols imgs.length).map (layoutCandidate imgs cw ch)).isEmpty = false := by
      cases hq : (layoutCols imgs.length).map (layoutCandidate imgs cw ch) with
      | nil => exact absurd hq hcne
      | cons a t => rfl
    rw [hE]
    simp only [Bool.false_eq_true, if_false]
    rcases layoutFold_find_first imgs cw ch (layoutCols imgs.length) {} with h | ⟨hfind, _⟩
    · exfalso
      rw [hfold] at h
      have h3 := layoutCandidate_area_nonneg hpos cw ch cols
      rw [h] at h3
      have hd : ({} : LayoutResult).area = -1 := rfl
      rw [hd] at h3
      linarith
    · have hA : (layoutFold imgs cw ch {} (layoutCols imgs.length)).area
          = bestAreaOf ((layoutCols imgs.length).map (layoutCandidate imgs cw ch)) := by
        rw [layoutFold_area_eq_max]
        cases hq : (layoutCols imgs.length).map (layoutCandidate imgs cw ch) with
        | nil => exact absurd hq hcne
        | cons c0 cs =>
          have hc0 : 0 ≤ c0.area := by
            have : c0 ∈ (layoutCols imgs.length).map (layoutCandidate imgs cw ch) := by
              rw [hq]; exact List.mem_cons_self c0 cs
            obtain ⟨cols', _, hh⟩ := List.mem_map.mp this
            rw [← hh]
            exact layoutCandidate_area_nonneg hpos cw ch cols'
          simp only [bestAreaOf, List.foldl_cons]
          congr 1
          exact max_eq_right (le_trans (by norm_num) hc0)
      rw [hA] at hfind
      rw [hfold] at hfind
      exact hfind.symm

theorem claim_C2_witness :
    (∀ img ∈ [Img.mk "a" 2 3], 0 < img.w ∧ 0 < img.h) ∧
    layout [Img.mk "a" 2 3] 4 5 = layoutSpec [Img.mk "a" 2 3] 4 5 :=
  ⟨by decide, claim_C2 [Img.mk "a" 2 3] 4 5 (by decide)⟩

/-! ## C3 — determinism of `run` across invocations -/

/-- C3: for a fixed record list, template and image environment, two
invocations of `run` produce identical results — the synthesized body
markup (hence its serialisation), the element-id sequence and the
stacking-order sequence are all independent of the state the module-level
sequential id counter was left in by earlier calls, because `run` resets
it to its seed first. -/
theorem claim_C3 (g1 g2 : ℕ) (data : List DataRow) (tpl : Template) (env : Env) :
    (run g1 data tpl env).1 = (run g2 data tpl env).1 ∧
    Except.map (fun o => attrSeq "id" o.body) (run g1 data tpl env).1
      = Except.map (fun o => attrSeq "id" o.body) (run g2 data tpl env).1 ∧
    Except.map (fun o => attrSeq "zOrder" o.body) (run g1 data tpl env).1
      = Except.map (fun o => attrSeq "zOrder" o.body) (run g2 data tpl env).1 :=
  ⟨rfl, rfl, rfl⟩

/-! ## C9 — `Img.__init__` mutates the input image file -/

theorem exifTranspose_orientation (im : PilImage) :
    (exifTranspose im).orientation = none := by
  rcases im with ⟨w, h, o, x⟩
  cases o with
  | none => rfl
  | some v =>
    simp only [exifTranspose]
    split
    · rfl
    · rfl

/-- C9: for every readable image path, constructing `Img` writes the file
back at that same path — re-encoded, with all EXIF metadata (orientation
tag included) stripped — even when the stored image carries no
orientation tag at all; so a run mutates its input image files. -/
theorem claim_C9 (fs : ImgFS) (path : String) (im : PilImage)
    (hopen : fs path = some im) :
    ∃ img fs' writes, imgInit fs path = some (img, fs', writes) ∧
      writes = [path] ∧
      fs' path = some { exifTranspose im with otherExif := false } ∧
      (fs' path).map (fun x => x.orientation) = some none ∧
      (fs' path).map (fun x => x.otherExif) = some false ∧
      (im.orientation = none →
        fs' path = some
          { pixW := im.pixW, pixH := im.pixH, orientation := none, otherExif := false }) := by
  have hstep : imgInit fs path = some
      (⟨path, (({ exifTranspose im with otherExif := false } : PilImage).pixW : ℚ),
        (({ exifTranspose im with otherExif := false } : PilImage).pixH : ℚ)⟩,
       (fun q => if q = path then some { exifTranspose im with otherExif := false }
        else fs q),
       [path]) := by
    unfold imgInit
    rw [hopen]
  refine ⟨_, _, _, hstep, rfl, ?_, ?_, ?_, ?_⟩
  · simp
  · simp [exifTranspose_orientation]
  · simp
  · intro hor
    simp only [if_pos rfl]
    unfold exifTranspose
    rw [hor]
    rfl

theorem claim_C9_witness :
    ((fun p => if p = "a.jpg" then some (PilImage.mk 10 20 none true) else none :
        ImgFS) "a.jpg" = some (PilImage.mk 10 20 none true)) ∧
    ∃ img fs' writes,
      imgInit (fun p => if p = "a.jpg" then some (PilImage.mk 10 20 none true) else none)
          "a.jpg" = some (img, fs', writes) ∧
      writes = ["a.jpg"] ∧
      fs' "a.jpg" = some { exifTranspose (PilImage.mk 10 20 none true) with otherExif := false } ∧
      ( fs' "a.jpg").map (fun x => x.orientation) = some none ∧
      ( fs' "a.jpg").map (fun x => x.otherExif) = some false ∧
      ((PilImage.mk 10 20 none true).orientation = none →
        fs' "a.jpg" = some
          { pixW := 10, pixH := 20, orientation := none, otherExif := false }) :=
  ⟨by decide, claim_C9 _ "a.jpg" (PilImage.mk 10 20 none true) (by decide)⟩

/-! ## C7 — the Style Profile Extractor and the exceptions it can raise -/

theorem getIntAttr_err {e : Elem} {k : String} {d : ℤ} {er : RunError}
    (h : getIntAttr e k d = .error er) :
    ∃ s, er = .valueError (.badInt s) ∧ pyInt s = none := by
  unfold getIntAttr at h
  split at h
  · cases h
  · rename_i s hs
    split at h
    · cases h
    · rename_i hpy
      injection h with h'
      exact ⟨s, h'.symm, hpy⟩

theorem fromTcSize_err {p0 : TemplateParams} {tc : Elem} {b : Bool} {er : RunError}
    (h : fromTcSize p0 tc b = .error er) :
    ∃ s, er = .valueError (.badInt s) ∧ pyInt s = none := by
  unfold fromTcSize at h
  split at h
  · split at h
    · rename_i heq
      injection h with h'
      exact h' ▸ getIntAttr_err heq
    · split at h
      · split at h
        · rename_i heq
          injection h with h'
          exact h' ▸ getIntAttr_err heq
        · cases h
      · split at h
        · rename_i heq
          injection h with h'
          exact h' ▸ getIntAttr_err heq
        · cases h
  · cases h

theorem fromTcMargin_err {p1 : TemplateParams} {tc : Elem} {er : RunError}
    (h : fromTcMargin p1 tc = .error er) :
    ∃ s, er = .valueError (.badInt s) ∧ pyInt s = none := by
  unfold fromTcMargin at h
  split at h
  · split at h
    · rename_i heq
      injection h with h'
      exact h' ▸ getIntAttr_err heq
    · split at h
      · rename_i heq
        injection h with h'
        exact h' ▸ getIntAttr_err heq
      · cases h
  · cases h

theorem fromTc_err {p0 : TemplateParams} {tc? : Option Elem} {b : Bool} {er : RunError}
    (h : fromTc p0 tc? b = .error er) :
    ∃ s, er = .valueError (.badInt s) ∧ pyInt s = none := by
  unfold fromTc at h
  split at h
  · cases h
  · split at h
    · rename_i heq
      injection h with h'
      exact h' ▸ fromTcSize_err heq
    · split at h
      · rename_i heq
        injection h with h'
        exact h' ▸ fromTcMargin_err heq
      · split at h
        · cases h
        · split at h
          · cases h
          · cases h

theorem readVertOffset_err {p0 : TemplateParams} {tbl : Elem} {er : RunError}
    (h : readVertOffset p0 tbl = .error er) :
    ∃ s, er = .valueError (.badInt s) ∧ pyInt s = none := by
  unfold readVertOffset at h
  split at h
  · split at h
    · rename_i heq
      injection h with h'
      exact h' ▸ getIntAttr_err heq
    · cases h
  · cases h

theorem readOutMargin_err {p1 : TemplateParams} {tbl : Elem} {er : RunError}
    (h : readOutMargin p1 tbl = .error er) :
    ∃ s, er = .valueError (.badInt s) ∧ pyInt s = none := by
  unfold readOutMargin at h
  split at h
  · split at h
    · rename_i heq
      injection h with h'
      exact h' ▸ getIntAttr_err heq
    · cases h
  · cases h

theorem readTemplateParams_err {ps : List Elem} {er : RunError}
    (h : readTemplateParams ps = .error er) :
    ∃ s, er = .valueError (.badInt s) ∧ pyInt s = none := by
  unfold readTemplateParams at h
  split at h
  · cases h
  · split at h
    · cases h
    · split at h
      · rename_i heq
        injection h with h'
        exact h' ▸ readVertOffset_err heq
      · split at h
        · rename_i heq
          injection h with h'
          exact h' ▸ readOutMargin_err heq
        · split at h
          · split at h
            · rename_i heq
              injection h with h'
              exact h' ▸ fromTc_err heq
            · split at h
              · rename_i heq
                injection h with h'
                exact h' ▸ fromTc_err heq
              · cases h
          · cases h

/-- C7, counterexample: the extractor is not exception-free.  On a
perfectly recognisable record block whose `hp:pos` carries the
non-numeric `vertOffset="x"`, `int('x')` raises `ValueError`, which
propagates out of `_read_template_params`. -/
theorem claim_C7_counterexample :
    readTemplateParams
      [Elem.node (hpTag "p") []
        [Elem.node (hpTag "run") []
          [Elem.node (hpTag "tbl") [("rowCnt", "2"), ("colCnt", "1")]
            [Elem.node (hpTag "pos") [("vertOffset", "x")] [] none] none] none]
        none]
      = .error (.valueError (.badInt "x")) := by
  rfl

/-- C7 (amended): the Style Profile Extractor never raises **except**
when a present numeric attribute fails Python integer parsing: for the
empty block list it returns the all-default profile; every error it can
produce is the `ValueError` of `int(...)` on a non-integer attribute
text; and a first block whose paragraph carries no `hp:run` child leaves
every field except `wrap_para_pr` at its built-in default. -/
theorem claim_C7 (ps : List Elem) (wrapP : Elem) (rest : List Elem) (er : RunError)
    (hps : readTemplateParams ps = .error er)
    (hnorun : wrapP.findTag (hpTag "run") = none) :
    (readTemplateParams [] = .ok {}) ∧
    (∃ s, er = .valueError (.badInt s) ∧ pyInt s = none) ∧
    (readTemplateParams (wrapP :: rest)
      = .ok { wrap_para_pr := wrapP.attrD "paraPrIDRef" "20" }) := by
  refine ⟨rfl, readTemplateParams_err hps, ?_⟩
  simp only [readTemplateParams]
  have htbl : findWrapTbl wrapP = none := by
    unfold findWrapTbl
    rw [hnorun]
  rw [htbl]
  have hwrap : wrapRefined wrapP = { wrap_para_pr := wrapP.attrD "paraPrIDRef" "20" } := by
    unfold wrapRefined
    rw [hnorun]
  rw [hwrap]

theorem claim_C7_witness :
    (readTemplateParams
        [Elem.node (hpTag "p") []
          [Elem.node (hpTag "run") []
            [Elem.node (hpTag "tbl") [("rowCnt", "2"), ("colCnt", "1")]
              [Elem.node (hpTag "pos") [("vertOffset", "x")] [] none] none] none]
          none]
        = .error (.valueError (.badInt "x"))) ∧
    ((Elem.node (hpTag "p") [("paraPrIDRef", "9")] [] none).findTag (hpTag "run") = none) ∧
    ((readTemplateParams [] = .ok {}) ∧
      (∃ s, RunError.valueError (.badInt "x") = .valueError (.badInt s) ∧ pyInt s = none) ∧
      (readTemplateParams [Elem.node (hpTag "p") [("paraPrIDRef", "9")] [] none]
        = .ok { wrap_para_pr :=
            (Elem.node (hpTag "p") [("paraPrIDRef", "9")] [] none).attrD "paraPrIDRef" "20" })) :=
  ⟨by rfl, by rfl,
    claim_C7
      [Elem.node (hpTag "p") []
        [Elem.node (hpTag "run") []
          [Elem.node (hpTag "tbl") [("rowCnt", "2"), ("colCnt", "1")]
            [Elem.node (hpTag "pos") [("vertOffset", "x")] [] none] none] none]
        none]
      (Elem.node (hpTag "p") [("paraPrIDRef", "9")] [] none) []
      (RunError.valueError (.badInt "x")) (by rfl) (by rfl)⟩

/-! ## Shape of the synthesized blocks -/

theorem isExpenseP_wrapBlock (env : Env) (title : String) (imgRows : List (List RowItem))
    (z : ℤ) (params : TemplateParams) (idc : ℕ) :
    isExpenseP (wrapBlock params (buildTable env title imgRows z params idc).1) = true := by
  rfl

theorem expContrib_wrapBlock (env : Env) (title : String) (imgRows : List (List RowItem))
    (z : ℤ) (params : TemplateParams) (idc : ℕ) :
    expContrib (wrapBlock params (buildTable env title imgRows z params idc).1)
      = [wrapBlock params (buildTable env title imgRows z params idc).1] := by
  rfl

theorem blockTitle_wrapBlock (env : Env) (title : String) (imgRows : List (List RowItem))
    (z : ℤ) (params : TemplateParams) (idc : ℕ) :
    blockTitle (wrapBlock params (buildTable env title imgRows z params idc).1)
      = some title := by
  rfl

theorem imageCell_wrapBlock_empty (env : Env) (title : String)
    (z : ℤ) (params : TemplateParams) (idc : ℕ) :
    imageCellParas (wrapBlock params (buildTable env title [] z params idc).1)
      = some [emptyImgPara params (imgHorzsizeOf params)] := by
  rfl

/-! ## Removal and insertion-position lemmas -/

theorem expContrib_eq_nil {p : Elem} (h : isExpenseP p = false) : expContrib p = [] := by
  unfold expContrib
  by_cases ht : p.tag = hpTag "p"
  · rw [if_pos ht]
    unfold isExpenseP at h
    rw [decide_eq_false_iff_not] at h
    have hmr : matchRuns p = [] := by
      unfold matchRuns
      rw [List.filter_eq_nil_iff]
      intro a ha hpa
      exact h ⟨ht, List.any_eq_true.mpr ⟨a, ha, hpa⟩⟩
    rw [hmr]
    rfl
  · rw [if_neg ht]

theorem expContrib_eq_single {p : Elem} (ht : isExpenseP p = true)
    (hone : (matchRuns p).length ≤ 1) : expContrib p = [p] := by
  unfold expContrib
  unfold isExpenseP at ht
  simp only [decide_eq_true_eq] at ht
  obtain ⟨htag, hany⟩ := ht
  rw [if_pos htag]
  obtain ⟨r, hr, hpr⟩ := List.any_eq_true.mp hany
  have hmem : r ∈ matchRuns p := List.mem_filter.mpr ⟨hr, hpr⟩
  match hmr : matchRuns p with
  | [] => rw [hmr] at hmem; cases hmem
  | [r0] => rfl
  | r0 :: r1 :: rest => rw [hmr] at hone; simp at hone

theorem flatMap_expContrib_eq_filter :
    ∀ l : List Elem, (∀ p ∈ l, (matchRuns p).length ≤ 1) →
      l.flatMap expContrib = l.filter isExpenseP := by
  intro l
  induction l with
  | nil => intro _; rfl
  | cons a t ih =>
    intro hone
    have ha := hone a (List.mem_cons_self a t)
    have ih' := ih (fun p hp => hone p (List.mem_cons_of_mem a hp))
    simp only [List.flatMap_cons, List.filter_cons]
    by_cases hp : isExpenseP a = true
    · rw [expContrib_eq_single hp ha, hp, ih']
      rfl
    · have hp' : isExpenseP a = false := by simpa using hp
      rw [expContrib_eq_nil hp', hp', ih']
      rfl

/-- Under the single-matching-run condition, `_find_expense_ps` returns
exactly the recognised direct children, each once. -/
theorem findExpensePs_eq_filter {root : Elem}
    (hone : ∀ p ∈ root.children, (matchRuns p).length ≤ 1) :
    findExpensePs root = root.children.filter isExpenseP :=
  flatMap_expContrib_eq_filter root.children hone

theorem removeAll_cons_ne {a : Elem} : ∀ (ps l : List Elem), (∀ p ∈ ps, p ≠ a) →
    removeAll (a :: l) ps = (removeAll l ps).map (fun l' => a :: l') := by
  intro ps
  induction ps with
  | nil => intro l _; rfl
  | cons p ps' ih =>
    intro l hne
    have hpa : p ≠ a := hne p (List.mem_cons_self p ps')
    simp only [removeAll, removeFirstChild]
    rw [if_neg (fun hh => hpa hh.symm)]
    cases hrem : removeFirstChild l p with
    | none => rfl
    | some l' =>
      simp only [Option.map]
      exact ih l' (fun q hq => hne q (List.mem_cons_of_mem p hq))

/-- Removing exactly the `pred`-satisfying elements (in order) succeeds
and leaves the complement, in order. -/
theorem removeAll_filter (pred : Elem → Bool) :
    ∀ l : List Elem, removeAll l (l.filter pred)
      = some (l.filter (fun x => !(pred x))) := by
  intro l
  induction l with
  | nil => rfl
  | cons a t ih =>
    by_cases hp : pred a = true
    · have h1 : (a :: t).filter pred = a :: t.filter pred := by
        simp [List.filter_cons, hp]
      have h2 : (a :: t).filter (fun x => !(pred x)) = t.filter (fun x => !(pred x)) := by
        simp [List.filter_cons, hp]
      rw [h1, h2]
      simp only [removeAll, removeFirstChild, if_pos rfl]
      exact ih
    · have hp' : pred a = false := by simpa using hp
      have h1 : (a :: t).filter pred = t.filter pred := by
        simp [List.filter_cons, hp']
      have h2 : (a :: t).filter (fun x => !(pred x))
          = a :: t.filter (fun x => !(pred x)) := by
        simp [List.filter_cons, hp']
      rw [h1, h2]
      rw [removeAll_cons_ne (t.filter pred) t ?hne]
      case hne =>
        intro p hp2 he
        have hm := (List.mem_filter.mp hp2).2
        rw [he, hp'] at hm
        cases hm
      rw [ih]
      rfl

/-- `list(root).index(p0)` for the first recognised paragraph equals the
index of the first recognised paragraph, and that index never exceeds
the number of surviving (unrecognised) children. -/
theorem indexOf_first_filter (pred : Elem → Bool) :
    ∀ (l : List Elem) (p0 : Elem) (t : List Elem), l.filter pred = p0 :: t →
      List.findIdx (fun c => c = p0) l = List.findIdx (fun c => pred c) l ∧
      List.findIdx (fun c => pred c) l ≤ (l.filter (fun x => !(pred x))).length := by
  intro l
  induction l with
  | nil => intro p0 t h; cases h
  | cons a l' ih =>
    intro p0 t hf
    by_cases hp : pred a = true
    · have h1 : (a :: l').filter pred = a :: l'.filter pred := by
        simp [List.filter_cons, hp]
      rw [h1] at hf
      injection hf with hf1 _
      constructor
      · have hda : decide (a = p0) = true := by rw [hf1]; simp
        rw [List.findIdx_cons, List.findIdx_cons, hda, hp]
        rfl
      · rw [List.findIdx_cons, hp]
        simp
    · have hp' : pred a = false := by simpa using hp
      have h1 : (a :: l').filter pred = l'.filter pred := by
        simp [List.filter_cons, hp']
      rw [h1] at hf
      obtain ⟨ihA, ihB⟩ := ih p0 t hf
      have hap0 : a ≠ p0 := by
        intro he
        have : pred p0 = true := by
          have hmem : p0 ∈ l'.filter pred := by rw [hf]; exact List.mem_cons_self p0 t
          exact (List.mem_filter.mp hmem).2
        rw [← he, hp'] at this
        cases this
      have h2 : (a :: l').filter (fun x => !(pred x))
          = a :: l'.filter (fun x => !(pred x)) := by
        simp [List.filter_cons, hp']
      constructor
      · have hda : decide (a = p0) = false := by simp [hap0]
        rw [List.findIdx_cons, List.findIdx_cons, hda, hp', ihA]
      · rw [List.findIdx_cons, hp', h2]
        simp only [List.length_cons, cond_false]
        omega

/-! ## The record loop: logs and row shapes -/

theorem loadImgs_log_mono (env : Env) :
    ∀ (paths : List String) (pi : ℕ) (log : List LogEntry),
      ∃ suffix, (loadImgs env paths pi log).2 = log ++ suffix := by
  intro paths
  induction paths with
  | nil => intro pi log; exact ⟨[], (List.append_nil log).symm⟩
  | cons p ps ih =>
    intro pi log
    simp only [loadImgs]
    cases hp : env p with
    | some spec =>
      obtain ⟨sfx, hsfx⟩ := ih pi log
      exact ⟨sfx, by simp [hsfx]⟩
    | none =>
      obtain ⟨sfx, hsfx⟩ := ih pi (log ++ [.imgLoadFail pi p])
      exact ⟨[.imgLoadFail pi p] ++ sfx, by simp [hsfx]⟩

theorem loadImgs_all_fail (env : Env) :
    ∀ (paths : List String) (pi : ℕ) (log : List LogEntry),
      (∀ p ∈ paths, env p = none) → (loadImgs env paths pi log).1 = [] := by
  intro paths
  induction paths with
  | nil => intro _ _ _; rfl
  | cons p ps ih =>
    intro pi log hall
    have hp := hall p (List.mem_cons_self p ps)
    simp only [loadImgs, hp]
    exact ih pi _ (fun q hq => hall q (List.mem_cons_of_mem p hq))

theorem loadImgs_fail_mem (env : Env) :
    ∀ (paths : List String) (pi : ℕ) (log : List LogEntry) (pth : String),
      pth ∈ paths → env pth = none →
      LogEntry.imgLoadFail pi pth ∈ (loadImgs env paths pi log).2 := by
  intro paths
  induction paths with
  | nil => intro _ _ _ hmem; cases hmem
  | cons p ps ih =>
    intro pi log pth hmem hfail
    rcases List.mem_cons.mp hmem with rfl | hmem'
    · simp only [loadImgs, hfail]
      obtain ⟨sfx, hsfx⟩ := loadImgs_log_mono env ps pi (log ++ [.imgLoadFail pi pth])
      rw [hsfx]
      simp
    · simp only [loadImgs]
      cases hp : env p with
      | some spec => exact ih pi log pth hmem' hfail
      | none => exact ih pi _ pth hmem' hfail

theorem packRow_log_mono (env : Env) (imgs : List Img) (items : List LayoutItem)
    (colsN rIdx printedIdx : ℕ) :
    ∀ (fuel cIdx : ℕ), fuel = colsN - cIdx →
      ∀ (bc : ℤ) (nb : List (String × String)) (log : List LogEntry),
      ∃ sfx, (packRow env imgs items colsN rIdx printedIdx cIdx bc nb log).2.2.2
        = log ++ sfx := by
  intro fuel
  induction fuel with
  | zero =>
    intro cIdx hf bc nb log
    have : ¬ cIdx < colsN := by omega
    rw [packRow, dif_neg this]
    exact ⟨[], by simp⟩
  | succ f ih =>
    intro cIdx hf bc nb log
    by_cases hc : cIdx < colsN
    · rw [packRow, dif_pos hc]
      by_cases hi : rIdx * colsN + cIdx < items.length
      · rw [if_pos hi]
        dsimp only
        cases hb : (env (imgs.getD (items.getD (rIdx * colsN + cIdx) default).idx
            default).path).bind (fun s => s.bytes) with
        | some bs =>
          obtain ⟨sfx, hsfx⟩ := ih (cIdx + 1) (by omega) (bc + 1)
            (dictSet nb ("BinData/" ++ ("image" ++ intStr bc) ++ "." ++
              extOf (imgs.getD (items.getD (rIdx * colsN + cIdx) default).idx
                default).path) bs) log
          refine ⟨sfx, ?_⟩
          rw [← hsfx]
        | none =>
          obtain ⟨sfx, hsfx⟩ := ih (cIdx + 1) (by omega) (bc + 1 - 1) nb
            (log ++ [.imgReadFail printedIdx
              (imgs.getD (items.getD (rIdx * colsN + cIdx) default).idx default).path])
          exact ⟨_, by rw [hsfx, List.append_assoc]⟩
      · rw [if_neg hi]
        exact ⟨[], by simp⟩
    · rw [packRow, dif_neg hc]
      exact ⟨[], by simp⟩

theorem packGrid_log_mono (env : Env) (imgs : List Img) (items : List LayoutItem)
    (rowsN colsN printedIdx : ℕ) :
    ∀ (fuel rIdx : ℕ), fuel = rowsN - rIdx →
      ∀ (bc : ℤ) (nb : List (String × String)) (log : List LogEntry),
      ∃ sfx, (packGrid env imgs items rowsN colsN printedIdx rIdx bc nb log).2.2.2
        = log ++ sfx := by
  intro fuel
  induction fuel with
  | zero =>
    intro rIdx hf bc nb log
    have : ¬ rIdx < rowsN := by omega
    rw [packGrid, dif_neg this]
    exact ⟨[], by simp⟩
  | succ f ih =>
    intro rIdx hf bc nb log
    by_cases hr : rIdx < rowsN
    · rw [packGrid, dif_pos hr]
      dsimp only
      obtain ⟨s1, hs1⟩ := packRow_log_mono env imgs items colsN rIdx printedIdx
        (colsN - 0) 0 rfl bc nb log
      obtain ⟨s2, hs2⟩ := ih (rIdx + 1) (by omega)
        (packRow env imgs items colsN rIdx printedIdx 0 bc nb log).2.1
        (packRow env imgs items colsN rIdx printedIdx 0 bc nb log).2.2.1
        (packRow env imgs items colsN rIdx printedIdx 0 bc nb log).2.2.2
      refine ⟨s1 ++ s2, ?_⟩
      rw [← List.append_assoc, ← hs1, ← hs2]
    · rw [packGrid, dif_neg hr]
      exact ⟨[], by simp⟩

theorem recordImgRows_log_mono (env : Env) (params : TemplateParams) (row : DataRow)
    (bc : ℤ) (nb : List (String × String)) (log : List LogEntry) :
    ∃ sfx, (recordImgRows env params row bc nb log).2.2.2 = log ++ sfx := by
  unfold recordImgRows
  dsimp only
  by_cases he : (normalizePaths row.imgPaths).isEmpty
  · rw [if_pos he]
    exact ⟨_, rfl⟩
  · rw [if_neg he]
    obtain ⟨s1, hs1⟩ := loadImgs_log_mono env (normalizePaths row.imgPaths)
      (row.dataIdx + 1) log
    by_cases h2 : (loadImgs env (normalizePaths row.imgPaths) (row.dataIdx + 1) log).1.isEmpty
    · rw [if_pos h2]
      exact ⟨s1 ++ [.noValidImages (row.dataIdx + 1)], by rw [hs1, List.append_assoc]⟩
    · rw [if_neg h2]
      cases hl : layout (loadImgs env (normalizePaths row.imgPaths) (row.dataIdx + 1) log).1
          params.imgWmm params.imgHmm with
      | none =>
        exact ⟨s1 ++ [.layoutFail (row.dataIdx + 1)], by
          dsimp only
          rw [hs1, List.append_assoc]⟩
      | some lr =>
        dsimp only
        by_cases h3 : lr.items.isEmpty
        · rw [if_pos h3]
          exact ⟨s1 ++ [.layoutFail (row.dataIdx + 1)], by rw [hs1, List.append_assoc]⟩
        · rw [if_neg h3]
          cases hg : lr.grid with
          | none => exact ⟨s1, hs1⟩
          | some g =>
            obtain ⟨s2, hs2⟩ := packGrid_log_mono env
              (loadImgs env (normalizePaths row.imgPaths) (row.dataIdx + 1) log).1
              lr.items g.1 g.2 (row.dataIdx + 1) (g.1 - 0) 0 rfl bc nb
              (loadImgs env (normalizePaths row.imgPaths) (row.dataIdx + 1) log).2
            exact ⟨s1 ++ s2, by rw [hs2, hs1, List.append_assoc]⟩

theorem recordImgRows_all_fail (env : Env) (params : TemplateParams) (row : DataRow)
    (bc : ℤ) (nb : List (String × String)) (log : List LogEntry)
    (hall : ∀ pth ∈ normalizePaths row.imgPaths, env pth = none) :
    (recordImgRows env params row bc nb log).1 = [] := by
  unfold recordImgRows
  dsimp only
  by_cases he : (normalizePaths row.imgPaths).isEmpty
  · rw [if_pos he]
  · rw [if_neg he]
    have h1 : (loadImgs env (normalizePaths row.imgPaths) (row.dataIdx + 1) log).1 = [] :=
      loadImgs_all_fail env _ _ _ hall
    have h2 : (loadImgs env (normalizePaths row.imgPaths) (row.dataIdx + 1) log).1.isEmpty
        = true := by rw [h1]; rfl
    rw [if_pos h2]

theorem recordImgRows_fail_mem (env : Env) (params : TemplateParams) (row : DataRow)
    (bc : ℤ) (nb : List (String × String)) (log : List LogEntry) (pth : String)
    (hmem : pth ∈ normalizePaths row.imgPaths) (hfail : env pth = none) :
    LogEntry.imgLoadFail (row.dataIdx + 1) pth
      ∈ (recordImgRows env params row bc nb log).2.2.2 := by
  have hne : ¬ (normalizePaths row.imgPaths).isEmpty := by
    cases hq : normalizePaths row.imgPaths with
    | nil => rw [hq] at hmem; cases hmem
    | cons a t => simp
  have hload := loadImgs_fail_mem env (normalizePaths row.imgPaths) (row.dataIdx + 1)
    log pth hmem hfail
  unfold recordImgRows
  dsimp only
  rw [if_neg hne]
  by_cases h2 : (loadImgs env (normalizePaths row.imgPaths) (row.dataIdx + 1) log).1.isEmpty
  · rw [if_pos h2]
    exact List.mem_append_left _ hload
  · rw [if_neg h2]
    cases hl : layout (loadImgs env (normalizePaths row.imgPaths) (row.dataIdx + 1) log).1
        params.imgWmm params.imgHmm with
    | none =>
      dsimp only
      exact List.mem_append_left _ hload
    | some lr =>
      dsimp only
      by_cases h3 : lr.items.isEmpty
      · rw [if_pos h3]
        exact List.mem_append_left _ hload
      · rw [if_neg h3]
        cases hg : lr.grid with
        | none => exact hload
        | some g =>
          obtain ⟨s2, hs2⟩ := packGrid_log_mono env
            (loadImgs env (normalizePaths row.imgPaths) (row.dataIdx + 1) log).1
            lr.items g.1 g.2 (row.dataIdx + 1) (g.1 - 0) 0 rfl bc nb
            (loadImgs env (normalizePaths row.imgPaths) (row.dataIdx + 1) log).2
          rw [hs2]
          exact List.mem_append_left _ hload

theorem pyInsert_length {α : Type} (l : List α) (i : ℕ) (b : α) (h : i ≤ l.length) :
    (pyInsert l i b).length = l.length + 1 := by
  simp only [pyInsert, List.length_append, List.length_take, List.length_cons,
    List.length_drop]
  omega

/-- The record loop inserts one recognisable block per record, in input
order, at consecutive positions starting from the initial insertion
index; the pre-existing children stay, in order, around them.  A record
all of whose image paths fail to load gets the single empty image-cell
paragraph, every load failure leaves a warning in the log, and the log
only ever grows. -/
theorem processRecords_spec (env : Env) (params : TemplateParams) :
    ∀ (rows : List DataRow) (st : LoopState),
      st.insertIdx ≤ st.children.length →
      ∃ blocks : List Elem,
        (processRecords env params rows st).children
          = st.children.take st.insertIdx ++ blocks ++ st.children.drop st.insertIdx ∧
        blocks.length = rows.length ∧
        (∀ b ∈ blocks, isExpenseP b = true ∧ expContrib b = [b]) ∧
        blocks.map blockTitle = rows.map (fun r => some (rowTitle r)) ∧
        (∀ j, j < rows.length →
          (∀ pth ∈ normalizePaths ((rows.getD j default).imgPaths), env pth = none) →
          imageCellParas (blocks.getD j default)
            = some [emptyImgPara params (imgHorzsizeOf params)]) ∧
        (∃ sfx, (processRecords env params rows st).log = st.log ++ sfx) ∧
        (∀ r ∈ rows, ∀ pth ∈ normalizePaths r.imgPaths, env pth = none →
          LogEntry.imgLoadFail (r.dataIdx + 1) pth
            ∈ (processRecords env params rows st).log) := by
  intro rows
  induction rows with
  | nil =>
    intro st hle
    refine ⟨[], ?_, rfl, ?_, rfl, ?_, ?_, ?_⟩
    · show st.children = _
      rw [List.append_nil, List.take_append_drop]
    · intro b hb; cases hb
    · intro j hj; exact absurd hj (Nat.not_lt_zero j)
    · exact ⟨[], by simp [processRecords]⟩
    · intro r hr; cases hr
  | cons r rs ih =>
    intro st hle
    have hstep : processRecords env params (r :: rs) st
        = processRecords env params rs (processRecord env params r st) := rfl
    set st' := processRecord env params r st with hst'
    set blk := wrapBlock params (buildTable env (rowTitle r)
      (recordImgRows env params r st.binCounter st.newBinaries st.log).1
      st.z params st.idc).1 with hblk
    have hchil : st'.children = pyInsert st.children st.insertIdx blk := rfl
    have hidx : st'.insertIdx = st.insertIdx + 1 := rfl
    have hlog' : st'.log
        = (recordImgRows env params r st.binCounter st.newBinaries st.log).2.2.2 := rfl
    have hle' : st'.insertIdx ≤ st'.children.length := by
      rw [hidx, hchil, pyInsert_length st.children st.insertIdx blk hle]
      omega
    obtain ⟨blocks', h1, h2, h3, h4, h5, ⟨sfx, hsfx⟩, h7⟩ := ih st' hle'
    have htake : (pyInsert st.children st.insertIdx blk).take (st.insertIdx + 1)
        = st.children.take st.insertIdx ++ [blk] := by
      simp only [pyInsert]
      rw [List.take_append_eq_append_take]
      have hlen : (st.children.take st.insertIdx).length = st.insertIdx := by
        rw [List.length_take]
        omega
      rw [List.take_of_length_le (by omega), hlen]
      have : st.insertIdx + 1 - st.insertIdx = 1 := by omega
      rw [this]
      rfl
    have hdrop : (pyInsert st.children st.insertIdx blk).drop (st.insertIdx + 1)
        = st.children.drop st.insertIdx := by
      simp only [pyInsert]
      rw [List.drop_append_eq_append_drop]
      have hlen : (st.children.take st.insertIdx).length = st.insertIdx := by
        rw [List.length_take]
        omega
      rw [List.drop_eq_nil_of_le (by omega), hlen]
      have : st.insertIdx + 1 - st.insertIdx = 1 := by omega
      rw [this]
      rfl
    refine ⟨blk :: blocks', ?_, ?_, ?_, ?_, ?_, ?_, ?_⟩
    · rw [hstep, h1, hidx, hchil, htake, hdrop]
      simp [List.append_assoc]
    · simp [h2]
    · intro b hb
      rcases List.mem_cons.mp hb with rfl | hb'
      · rw [hblk]
        exact ⟨isExpenseP_wrapBlock env (rowTitle r) _ st.z params st.idc,
          expContrib_wrapBlock env (rowTitle r) _ st.z params st.idc⟩
      · exact h3 b hb'
    · simp only [List.map_cons, h4, hblk,
        blockTitle_wrapBlock env (rowTitle r) _ st.z params st.idc]
    · intro j hj hallfail
      cases j with
      | zero =>
        simp only [List.getD_cons_zero] at hallfail ⊢
        have hrr : (recordImgRows env params r st.binCounter st.newBinaries st.log).1
            = [] := recordImgRows_all_fail env params r _ _ _ hallfail
        rw [hblk, hrr]
        exact imageCell_wrapBlock_empty env (rowTitle r) st.z params st.idc
      | succ j' =>
        simp only [List.getD_cons_succ] at hallfail ⊢
        exact h5 j' (by simpa using hj) hallfail
    · obtain ⟨s0, hs0⟩ := recordImgRows_log_mono env params r st.binCounter
        st.newBinaries st.log
      refine ⟨s0 ++ sfx, ?_⟩
      rw [hstep, hsfx, hlog', hs0, List.append_assoc]
    · intro r0 hr0 pth hpmem hpfail
      rcases List.mem_cons.mp hr0 with rfl | hr0'
      · have hmm := recordImgRows_fail_mem env params r0 st.binCounter st.newBinaries
          st.log pth hpmem hpfail
        rw [hstep, hsfx, hlog']
        exact List.mem_append_left _ hmm
      · rw [hstep]
        exact h7 r0 hr0' pth hpmem hpfail

/-! ## New binary entries: name shape and dictionary lemmas -/

theorem listStarts_append : ∀ (p r : List Char), listStarts p (p ++ r) = true := by
  intro p
  induction p with
  | nil => intro r; rfl
  | cons a as ih =>
    intro r
    simp only [List.cons_append, listStarts]
    simp [ih r]

theorem dictSet_key_pres {α : Type} (Q : String → Prop) (d : List (String × α))
    (k : String) (v : α) (hd : ∀ kv ∈ d, Q kv.1) (hk : Q k) :
    ∀ kv ∈ dictSet d k v, Q kv.1 := by
  intro kv hkv
  unfold dictSet at hkv
  by_cases hc : d.any (fun p => p.1 = k)
  · rw [if_pos hc] at hkv
    obtain ⟨p, hp, hpe⟩ := List.mem_map.mp hkv
    by_cases hpk : p.1 = k
    · rw [if_pos hpk] at hpe
      rw [← hpe]
      exact hk
    · rw [if_neg hpk] at hpe
      rw [← hpe]
      exact hd p hp
  · rw [if_neg hc] at hkv
    rcases List.mem_append.mp hkv with hin | hone
    · exact hd kv hin
    · rcases List.mem_singleton.mp hone with rfl
      exact hk

theorem binKey_starts (bid ext : String) :
    listStarts "BinData/".data ("BinData/" ++ bid ++ "." ++ ext).data = true := by
  rw [String.data_append, String.data_append, String.data_append, List.append_assoc,
    List.append_assoc]
  exact listStarts_append _ _

theorem packRow_names (env : Env) (imgs : List Img) (items : List LayoutItem)
    (colsN rIdx printedIdx : ℕ) :
    ∀ (fuel cIdx : ℕ), fuel = colsN - cIdx →
      ∀ (bc : ℤ) (nb : List (String × String)) (log : List LogEntry),
      (∀ kv ∈ nb, listStarts "BinData/".data kv.1.data = true) →
      ∀ kv ∈ (packRow env imgs items colsN rIdx printedIdx cIdx bc nb log).2.2.1,
        listStarts "BinData/".data kv.1.data = true := by
  intro fuel
  induction fuel with
  | zero =>
    intro cIdx hf bc nb log hnb
    have : ¬ cIdx < colsN := by omega
    rw [packRow, dif_neg this]
    exact hnb
  | succ f ih =>
    intro cIdx hf bc nb log hnb
    by_cases hc : cIdx < colsN
    · rw [packRow, dif_pos hc]
      by_cases hi : rIdx * colsN + cIdx < items.length
      · rw [if_pos hi]
        dsimp only
        cases hb : (env (imgs.getD (items.getD (rIdx * colsN + cIdx) default).idx
            default).path).bind (fun s => s.bytes) with
        | some bs =>
          have hset := dictSet_key_pres (fun k => listStarts "BinData/".data k.data = true)
            nb ("BinData/" ++ ("image" ++ intStr bc) ++ "." ++
              extOf (imgs.getD (items.getD (rIdx * colsN + cIdx) default).idx
                default).path) bs hnb (binKey_starts _ _)
          exact ih (cIdx + 1) (by omega) (bc + 1) _ log hset
        | none =>
          exact ih (cIdx + 1) (by omega) (bc + 1 - 1) nb _ hnb
      · rw [if_neg hi]
        exact hnb
    · rw [packRow, dif_neg hc]
      exact hnb

theorem packGrid_names (env : Env) (imgs : List Img) (items : List LayoutItem)
    (rowsN colsN printedIdx : ℕ) :
    ∀ (fuel rIdx : ℕ), fuel = rowsN - rIdx →
      ∀ (bc : ℤ) (nb : List (String × String)) (log : List LogEntry),
      (∀ kv ∈ nb, listStarts "BinData/".data kv.1.data = true) →
      ∀ kv ∈ (packGrid env imgs items rowsN colsN printedIdx rIdx bc nb log).2.2.1,
        listStarts "BinData/".data kv.1.data = true := by
  intro fuel
  induction fuel with
  | zero =>
    intro rIdx hf bc nb log hnb
    have : ¬ rIdx < rowsN := by omega
    rw [packGrid, dif_neg this]
    exact hnb
  | succ f ih =>
    intro rIdx hf bc nb log hnb
    by_cases hr : rIdx < rowsN
    · rw [packGrid, dif_pos hr]
      dsimp only
      have h1 := packRow_names env imgs items colsN rIdx printedIdx (colsN - 0) 0 rfl
        bc nb log hnb
      exact ih (rIdx + 1) (by omega) _ _ _ h1
    · rw [packGrid, dif_neg hr]
      exact hnb

theorem recordImgRows_names (env : Env) (params : TemplateParams) (row : DataRow)
    (bc : ℤ) (nb : List (String × String)) (log : List LogEntry)
    (hnb : ∀ kv ∈ nb, listStarts "BinData/".data kv.1.data = true) :
    ∀ kv ∈ (recordImgRows env params row bc nb log).2.2.1,
      listStarts "BinData/".data kv.1.data = true := by
  unfold recordImgRows
  dsimp only
  by_cases he : (normalizePaths row.imgPaths).isEmpty
  · rw [if_pos he]; exact hnb
  · rw [if_neg he]
    by_cases h2 : (loadImgs env (normalizePaths row.imgPaths) (row.dataIdx + 1) log).1.isEmpty
    · rw [if_pos h2]; exact hnb
    · rw [if_neg h2]
      cases hl : layout (loadImgs env (normalizePaths row.imgPaths) (row.dataIdx + 1) log).1
          params.imgWmm params.imgHmm with
      | none => exact hnb
      | some lr =>
        dsimp only
        by_cases h3 : lr.items.isEmpty
        · rw [if_pos h3]; exact hnb
        · rw [if_neg h3]
          cases hg : lr.grid with
          | none => exact hnb
          | some g =>
            exact packGrid_names env _ lr.items g.1 g.2 (row.dataIdx + 1) (g.1 - 0) 0 rfl
              bc nb _ hnb

theorem processRecords_names (env : Env) (params : TemplateParams) :
    ∀ (rows : List DataRow) (st : LoopState),
      (∀ kv ∈ st.newBinaries, listStarts "BinData/".data kv.1.data = true) →
      ∀ kv ∈ (processRecords env params rows st).newBinaries,
        listStarts "BinData/".data kv.1.data = true := by
  intro rows
  induction rows with
  | nil => intro st h; exact h
  | cons r rs ih =>
    intro st h
    exact ih (processRecord env params r st)
      (recordImgRows_names env params r st.binCounter st.newBinaries st.log h)

theorem find?_map_replace {α : Type} (k k2 : String) (v : α) (h : k ≠ k2) :
    ∀ t : List (String × α),
      List.find? (fun p => decide (p.1 = k2))
          (t.map (fun p => if p.1 = k then (k, v) else p))
        = List.find? (fun p => decide (p.1 = k2)) t := by
  intro t
  induction t with
  | nil => rfl
  | cons p t iht =>
    simp only [List.map_cons]
    by_cases hpk : p.1 = k
    · rw [if_pos hpk]
      rw [List.find?_cons_of_neg _ (by simp [h]),
        List.find?_cons_of_neg _ (by simp [hpk, h])]
      exact iht
    · rw [if_neg hpk]
      by_cases hp2 : p.1 = k2
      · rw [List.find?_cons_of_pos _ (by simp [hp2]),
          List.find?_cons_of_pos _ (by simp [hp2])]
      · rw [List.find?_cons_of_neg _ (by simp [hp2]),
          List.find?_cons_of_neg _ (by simp [hp2])]
        exact iht

theorem find?_append_single_ne {α : Type} (k k2 : String) (v : α) (h : k ≠ k2) :
    ∀ t : List (String × α),
      List.find? (fun p => decide (p.1 = k2)) (t ++ [(k, v)])
        = List.find? (fun p => decide (p.1 = k2)) t := by
  intro t
  induction t with
  | nil =>
    simp only [List.nil_append]
    rw [List.find?_cons_of_neg _ (by simp [h])]
  | cons p t iht =>
    simp only [List.cons_append]
    by_cases hp2 : p.1 = k2
    · rw [List.find?_cons_of_pos _ (by simp [hp2]),
        List.find?_cons_of_pos _ (by simp [hp2])]
    · rw [List.find?_cons_of_neg _ (by simp [hp2]),
        List.find?_cons_of_neg _ (by simp [hp2])]
      exact iht

theorem lookupD_dictSet_ne {α : Type} (d : List (String × α)) (k k2 : String) (v : α)
    (h : k ≠ k2) : lookupD (dictSet d k v) k2 = lookupD d k2 := by
  unfold dictSet lookupD
  by_cases hc : d.any (fun p => p.1 = k)
  · rw [if_pos hc, find?_map_replace k k2 v h d]
  · rw [if_neg hc, find?_append_single_ne k k2 v h d]

theorem lookupD_foldl_binData (k2 : String)
    (hk2 : listStarts "BinData/".data k2.data = false) :
    ∀ (nbs : List (String × String)) (zf : List (String × Content)),
      (∀ kv ∈ nbs, listStarts "BinData/".data kv.1.data = true) →
      lookupD (nbs.foldl (fun zf nb => dictSet zf nb.1 (Content.bin nb.2)) zf) k2
        = lookupD zf k2 := by
  intro nbs
  induction nbs with
  | nil => intro zf _; rfl
  | cons nb nbs' ih =>
    intro zf hall
    simp only [List.foldl_cons]
    rw [ih _ (fun kv hkv => hall kv (List.mem_cons_of_mem nb hkv))]
    apply lookupD_dictSet_ne
    intro he
    have h1 := hall nb (List.mem_cons_self nb nbs')
    rw [he, hk2] at h1
    cases h1

/-! ## Successful runs -/

theorem run_ok (g : ℕ) (data : List DataRow) (tpl : Template) (env : Env)
    (root hroot mElem : Elem) (params : TemplateParams) (mz : ℤ)
    (hz : tpl.isZip = true)
    (hsec : lookupD tpl.files SEC_KEY = some (Content.xml root))
    (hhpf : lookupD tpl.files HPF_KEY = some (Content.xml hroot))
    (hman : hroot.findTag ⟨hroot.tag.ns, "manifest"⟩ = some mElem)
    (hpar : readTemplateParams (findExpensePs root) = Except.ok params)
    (hone : ∀ p ∈ root.children, (matchRuns p).length ≤ 1)
    (hmz : maxZOrder (Elem.node root.tag root.attrs
        (root.children.filter (fun x => !(isExpenseP x))) root.txt) = Except.ok mz) :
    ∃ out, (run g data tpl env).1 = Except.ok out ∧
      out.body = Elem.node root.tag root.attrs
        (processRecords env params data (runInitState root tpl.files mz)).children
        root.txt ∧
      out.newBinaries
        = (processRecords env params data (runInitState root tpl.files mz)).newBinaries ∧
      out.log = (processRecords env params data (runInitState root tpl.files mz)).log := by
  have hrem : removeAll root.children (findExpensePs root)
      = some (root.children.filter (fun x => !(isExpenseP x))) := by
    rw [findExpensePs_eq_filter hone]
    exact removeAll_filter isExpenseP root.children
  have hzz : ¬ (tpl.isZip = false) := by simp [hz]
  simp only [run, if_neg hzz, hsec, hhpf, parseXmlContent, hpar, hrem, hmz, runInitState]
  by_cases hnb : (processRecords env params data
      ⟨root.children.filter (fun x => !(isExpenseP x)),
       (match findExpensePs root with
        | [] => root.children.length
        | p0 :: _ => indexOfElem root.children p0),
       mz + 1, maxBinaryIdx tpl.files + 1, idCounterSeed, [], []⟩).newBinaries.isEmpty
  · rw [if_pos hnb]
    exact ⟨_, rfl, rfl, rfl, rfl⟩
  · rw [if_neg hnb]
    have hnames := processRecords_names env params data
      ⟨root.children.filter (fun x => !(isExpenseP x)),
       (match findExpensePs root with
        | [] => root.children.length
        | p0 :: _ => indexOfElem root.children p0),
       mz + 1, maxBinaryIdx tpl.files + 1, idCounterSeed, [], []⟩
      (by intro kv hkv; cases hkv)
    have hlook : lookupD
        ((processRecords env params data
          ⟨root.children.filter (fun x => !(isExpenseP x)),
           (match findExpensePs root with
            | [] => root.children.length
            | p0 :: _ => indexOfElem root.children p0),
           mz + 1, maxBinaryIdx tpl.files + 1, idCounterSeed, [], []⟩).newBinaries.foldl
          (fun zf nb => dictSet zf nb.1 (Content.bin nb.2))
          (dictSet tpl.files SEC_KEY (Content.xml (Elem.node root.tag root.attrs
            (processRecords env params data
              ⟨root.children.filter (fun x => !(isExpenseP x)),
               (match findExpensePs root with
                | [] => root.children.length
                | p0 :: _ => indexOfElem root.children p0),
               mz + 1, maxBinaryIdx tpl.files + 1, idCounterSeed, [], []⟩).children
            root.txt))))
        HPF_KEY = some (Content.xml hroot) := by
      rw [lookupD_foldl_binData HPF_KEY (by decide) _ _ hnames,
        lookupD_dictSet_ne _ _ _ _ (by decide)]
      exact hhpf
    rw [hlook]
    dsimp only
    have hupd : updateContentHpf (Content.xml hroot)
        (processRecords env params data
          ⟨root.children.filter (fun x => !(isExpenseP x)),
           (match findExpensePs root with
            | [] => root.children.length
            | p0 :: _ => indexOfElem root.children p0),
           mz + 1, maxBinaryIdx tpl.files + 1, idCounterSeed, [], []⟩).newBinaries
        = Except.ok (Content.xml (Elem.node hroot.tag hroot.attrs
            (replaceFirstChild (fun c => c.tag = ⟨hroot.tag.ns, "manifest"⟩)
              (fun m => Elem.node m.tag m.attrs
                (m.children ++ (processRecords env params data
                  ⟨root.children.filter (fun x => !(isExpenseP x)),
                   (match findExpensePs root with
                    | [] => root.children.length
                    | p0 :: _ => indexOfElem root.children p0),
                   mz + 1, maxBinaryIdx tpl.files + 1, idCounterSeed, [], []⟩).newBinaries.map
                    (fun b => mkManifestItem hroot.tag.ns b.1)) m.txt)
              hroot.children)
            hroot.txt)) := by
      simp only [updateContentHpf, parseXmlContent, hman]
    rw [hupd]
    exact ⟨_, rfl, rfl, rfl, rfl⟩

/-! ## C4: block-count round trip -/

theorem flatMap_id_of_single {f : Elem → List Elem} :
    ∀ l : List Elem, (∀ b ∈ l, f b = [b]) → l.flatMap f = l := by
  intro l
  induction l with
  | nil => intro _; rfl
  | cons a t ih =>
    intro h
    rw [List.flatMap_cons, h a (List.mem_cons_self a t),
      ih (fun b hb => h b (List.mem_cons_of_mem a hb))]
    rfl

theorem flatMap_eq_nil_of_forall {f : Elem → List Elem} :
    ∀ l : List Elem, (∀ b ∈ l, f b = []) → l.flatMap f = [] := by
  intro l
  induction l with
  | nil => intro _; rfl
  | cons a t ih =>
    intro h
    rw [List.flatMap_cons, h a (List.mem_cons_self a t),
      ih (fun b hb => h b (List.mem_cons_of_mem a hb))]
    rfl

/-- **C4.** Block-count round trip: a valid template whose body holds
`k ≥ 1` recognised record blocks (`root.children.filter isExpenseP =
p0 :: t`), processed with `m = data.length` records, yields an output
whose body holds exactly the `m` freshly synthesised record blocks: the
`k` originals are all gone, the new blocks sit consecutively starting at
the top-level position of the first original block
(`List.findIdx isExpenseP root.children`), and their titles list the
records in input order. -/
theorem claim_C4 (g : ℕ) (data : List DataRow) (tpl : Template) (env : Env)
    (root hroot mElem p0 : Elem) (t : List Elem) (params : TemplateParams) (mz : ℤ)
    (hz : tpl.isZip = true)
    (hsec : lookupD tpl.files SEC_KEY = some (Content.xml root))
    (hhpf : lookupD tpl.files HPF_KEY = some (Content.xml hroot))
    (hman : hroot.findTag ⟨hroot.tag.ns, "manifest"⟩ = some mElem)
    (hpar : readTemplateParams (findExpensePs root) = Except.ok params)
    (hone : ∀ p ∈ root.children, (matchRuns p).length ≤ 1)
    (hmz : maxZOrder (Elem.node root.tag root.attrs
        (root.children.filter (fun x => !(isExpenseP x))) root.txt) = Except.ok mz)
    (hfp : root.children.filter isExpenseP = p0 :: t) :
    ∃ (out : RunOutput) (blocks : List Elem),
      (run g data tpl env).1 = Except.ok out ∧
      out.body.children
        = (root.children.filter (fun x => !(isExpenseP x))).take
            (List.findIdx isExpenseP root.children)
          ++ blocks
          ++ (root.children.filter (fun x => !(isExpenseP x))).drop
            (List.findIdx isExpenseP root.children) ∧
      blocks.length = data.length ∧
      findExpensePs out.body = blocks ∧
      blocks.map blockTitle = data.map (fun r => some (rowTitle r)) := by
  have hfind : findExpensePs root = p0 :: t := by
    rw [findExpensePs_eq_filter hone]; exact hfp
  obtain ⟨hidxEq, hidxLe⟩ := indexOf_first_filter isExpenseP root.children p0 t hfp
  have hch : (runInitState root tpl.files mz).children
      = root.children.filter (fun x => !(isExpenseP x)) := rfl
  have hinit : (runInitState root tpl.files mz).insertIdx
      = List.findIdx isExpenseP root.children := by
    simp only [runInitState, hfind, indexOfElem]
    exact hidxEq
  have hle : (runInitState root tpl.files mz).insertIdx
      ≤ (runInitState root tpl.files mz).children.length := by
    rw [hinit, hch]
    exact hidxLe
  obtain ⟨out, hok, hbody, hnbB, hlogB⟩ := run_ok g data tpl env root hroot mElem params mz
    hz hsec hhpf hman hpar hone hmz
  obtain ⟨blocks, h1, h2, h3, h4, h5, h6, h7⟩ :=
    processRecords_spec env params data (runInitState root tpl.files mz) hle
  refine ⟨out, blocks, hok, ?_, h2, ?_, h4⟩
  · rw [hbody]
    show (processRecords env params data (runInitState root tpl.files mz)).children = _
    rw [h1, hinit, hch]
  · rw [hbody]
    show ((Elem.node root.tag root.attrs
        (processRecords env params data (runInitState root tpl.files mz)).children
        root.txt).children).flatMap expContrib = blocks
    show ((processRecords env params data (runInitState root tpl.files mz)).children).flatMap
      expContrib = blocks
    rw [h1, List.flatMap_append, List.flatMap_append]
    have hsurv : ∀ x ∈ root.children.filter (fun x => !(isExpenseP x)),
        expContrib x = [] := by
      intro x hx
      have hxf := (List.mem_filter.mp hx).2
      exact expContrib_eq_nil (by simpa using hxf)
    have hnil1 : (List.take (runInitState root tpl.files mz).insertIdx
        (runInitState root tpl.files mz).children).flatMap expContrib = [] :=
      flatMap_eq_nil_of_forall _ (fun b hb => hsurv b
        (by rw [← hch]; exact List.mem_of_mem_take hb))
    have hnil2 : (List.drop (runInitState root tpl.files mz).insertIdx
        (runInitState root tpl.files mz).children).flatMap expContrib = [] :=
      flatMap_eq_nil_of_forall _ (fun b hb => hsurv b
        (by rw [← hch]; exact List.mem_of_mem_drop hb))
    have hid : blocks.flatMap expContrib = blocks :=
      flatMap_id_of_single _ (fun b hb => (h3 b hb).2)
    rw [hnil1, hnil2, hid]
    simp

theorem claim_C4_witness :
    ∃ (out : RunOutput) (blocks : List Elem),
      (run 0 [⟨0, "X", RawPaths.noneV⟩] wTpl (fun _ => none)).1 = Except.ok out ∧
      out.body.children
        = (wRoot.children.filter (fun x => !(isExpenseP x))).take
            (List.findIdx isExpenseP wRoot.children)
          ++ blocks
          ++ (wRoot.children.filter (fun x => !(isExpenseP x))).drop
            (List.findIdx isExpenseP wRoot.children) ∧
      blocks.length = ([⟨0, "X", RawPaths.noneV⟩] : List DataRow).length ∧
      findExpensePs out.body = blocks ∧
      blocks.map blockTitle
        = ([⟨0, "X", RawPaths.noneV⟩] : List DataRow).map (fun r => some (rowTitle r)) :=
  claim_C4 0 [⟨0, "X", RawPaths.noneV⟩] wTpl (fun _ => none) wRoot wHpf wMan wP0 []
    {} 0 rfl rfl rfl rfl rfl (by decide) rfl rfl

/-! ## C10: no recognised block — blocks appended after all children -/

/-- **C10.** When the template body holds no recognisable record block,
the run still completes: the insertion index defaults to the number of
top-level children, so the `m` synthesised blocks are appended after
every existing top-level child, in record input order. -/
theorem claim_C10 (g : ℕ) (data : List DataRow) (tpl : Template) (env : Env)
    (root hroot mElem : Elem) (params : TemplateParams) (mz : ℤ)
    (hz : tpl.isZip = true)
    (hsec : lookupD tpl.files SEC_KEY = some (Content.xml root))
    (hhpf : lookupD tpl.files HPF_KEY = some (Content.xml hroot))
    (hman : hroot.findTag ⟨hroot.tag.ns, "manifest"⟩ = some mElem)
    (hpar : readTemplateParams (findExpensePs root) = Except.ok params)
    (hone : ∀ p ∈ root.children, (matchRuns p).length ≤ 1)
    (hmz : maxZOrder (Elem.node root.tag root.attrs
        (root.children.filter (fun x => !(isExpenseP x))) root.txt) = Except.ok mz)
    (hfp : root.children.filter isExpenseP = []) :
    ∃ (out : RunOutput) (blocks : List Elem),
      (run g data tpl env).1 = Except.ok out ∧
      out.body.children = root.children ++ blocks ∧
      blocks.length = data.length ∧
      findExpensePs out.body = blocks ∧
      blocks.map blockTitle = data.map (fun r => some (rowTitle r)) := by
  have hall : ∀ x ∈ root.children, isExpenseP x = false := by
    intro x hx
    by_contra hc
    have hmem : x ∈ root.children.filter isExpenseP :=
      List.mem_filter.mpr ⟨hx, by simpa using hc⟩
    rw [hfp] at hmem
    cases hmem
  have hsurvEq : root.children.filter (fun x => !(isExpenseP x)) = root.children := by
    apply List.filter_eq_self.mpr
    intro a ha
    simp [hall a ha]
  have hfind : findExpensePs root = [] := by
    rw [findExpensePs_eq_filter hone, hfp]
  have hch : (runInitState root tpl.files mz).children
      = root.children.filter (fun x => !(isExpenseP x)) := rfl
  have hinit : (runInitState root tpl.files mz).insertIdx = root.children.length := by
    simp only [runInitState, hfind]
  have hle : (runInitState root tpl.files mz).insertIdx
      ≤ (runInitState root tpl.files mz).children.length := by
    rw [hinit, hch, hsurvEq]
  obtain ⟨out, hok, hbody, hnbB, hlogB⟩ := run_ok g data tpl env root hroot mElem params mz
    hz hsec hhpf hman hpar hone hmz
  obtain ⟨blocks, h1, h2, h3, h4, h5, h6, h7⟩ :=
    processRecords_spec env params data (runInitState root tpl.files mz) hle
  refine ⟨out, blocks, hok, ?_, h2, ?_, h4⟩
  · rw [hbody]
    show (processRecords env params data (runInitState root tpl.files mz)).children = _
    rw [h1, hinit, hch, hsurvEq, List.take_length, List.drop_length, List.append_nil]
  · rw [hbody]
    show ((processRecords env params data (runInitState root tpl.files mz)).children).flatMap
      expContrib = blocks
    rw [h1]
    rw [List.flatMap_append, List.flatMap_append]
    have hsurv : ∀ x ∈ root.children.filter (fun x => !(isExpenseP x)),
        expContrib x = [] := by
      intro x hx
      exact expContrib_eq_nil (hall x (List.mem_filter.mp hx).1)
    have hnil1 : (List.take (runInitState root tpl.files mz).insertIdx
        (runInitState root tpl.files mz).children).flatMap expContrib = [] :=
      flatMap_eq_nil_of_forall _ (fun b hb => hsurv b
        (by rw [← hch]; exact List.mem_of_mem_take hb))
    have hnil2 : (List.drop (runInitState root tpl.files mz).insertIdx
        (runInitState root tpl.files mz).children).flatMap expContrib = [] :=
      flatMap_eq_nil_of_forall _ (fun b hb => hsurv b
        (by rw [← hch]; exact List.mem_of_mem_drop hb))
    have hid : blocks.flatMap expContrib = blocks :=
      flatMap_id_of_single _ (fun b hb => (h3 b hb).2)
    rw [hnil1, hnil2, hid]
    simp

theorem claim_C10_witness :
    ∃ (out : RunOutput) (blocks : List Elem),
      (run 0 [⟨0, "Y", RawPaths.noneV⟩] wTplNoBlk (fun _ => none)).1 = Except.ok out ∧
      out.body.children = wRootNoBlk.children ++ blocks ∧
      blocks.length = ([⟨0, "Y", RawPaths.noneV⟩] : List DataRow).length ∧
      findExpensePs out.body = blocks ∧
      blocks.map blockTitle
        = ([⟨0, "Y", RawPaths.noneV⟩] : List DataRow).map (fun r => some (rowTitle r)) :=
  claim_C10 0 [⟨0, "Y", RawPaths.noneV⟩] wTplNoBlk (fun _ => none) wRootNoBlk wHpf wMan
    {} 0 rfl rfl rfl rfl rfl (by decide) rfl rfl

/-! ## C6: image failures are dropped with a warning; empty cells stay -/

/-- **C6.** On a valid template, the run succeeds for *every* image
environment, i.e. no image-loading failure propagates: each path on
which PIL raises (corrupt, unreadable, or over the decompression safety
threshold — modelled as `env pth = none`) only leaves a recorded warning
naming that record and path, the remaining records all still produce
their blocks (with their titles, in order), and a record all of whose
image paths fail still yields a block whose image cell holds exactly one
empty paragraph. -/
theorem claim_C6 (g : ℕ) (data : List DataRow) (tpl : Template) (env : Env)
    (root hroot mElem : Elem) (params : TemplateParams) (mz : ℤ)
    (hz : tpl.isZip = true)
    (hsec : lookupD tpl.files SEC_KEY = some (Content.xml root))
    (hhpf : lookupD tpl.files HPF_KEY = some (Content.xml hroot))
    (hman : hroot.findTag ⟨hroot.tag.ns, "manifest"⟩ = some mElem)
    (hpar : readTemplateParams (findExpensePs root) = Except.ok params)
    (hone : ∀ p ∈ root.children, (matchRuns p).length ≤ 1)
    (hmz : maxZOrder (Elem.node root.tag root.attrs
        (root.children.filter (fun x => !(isExpenseP x))) root.txt) = Except.ok mz) :
    ∃ (out : RunOutput) (blocks : List Elem),
      (run g data tpl env).1 = Except.ok out ∧
      findExpensePs out.body = blocks ∧
      blocks.length = data.length ∧
      blocks.map blockTitle = data.map (fun r => some (rowTitle r)) ∧
      (∀ r ∈ data, ∀ pth ∈ normalizePaths r.imgPaths, env pth = none →
        LogEntry.imgLoadFail (r.dataIdx + 1) pth ∈ out.log) ∧
      (∀ j, j < data.length →
        (∀ pth ∈ normalizePaths ((data.getD j default).imgPaths), env pth = none) →
        imageCellParas (blocks.getD j default)
          = some [emptyImgPara params (imgHorzsizeOf params)]) := by
  have hch : (runInitState root tpl.files mz).children
      = root.children.filter (fun x => !(isExpenseP x)) := rfl
  have hle : (runInitState root tpl.files mz).insertIdx
      ≤ (runInitState root tpl.files mz).children.length := by
    cases hcase : root.children.filter isExpenseP with
    | nil =>
      have hall : ∀ x ∈ root.children, isExpenseP x = false := by
        intro x hx
        by_contra hc
        have hmem : x ∈ root.children.filter isExpenseP :=
          List.mem_filter.mpr ⟨hx, by simpa using hc⟩
        rw [hcase] at hmem
        cases hmem
      have hsurvEq : root.children.filter (fun x => !(isExpenseP x)) = root.children := by
        apply List.filter_eq_self.mpr
        intro a ha
        simp [hall a ha]
      have hfind : findExpensePs root = [] := by
        rw [findExpensePs_eq_filter hone, hcase]
      have hinit : (runInitState root tpl.files mz).insertIdx = root.children.length := by
        simp only [runInitState, hfind]
      rw [hinit, hch, hsurvEq]
    | cons p0 t =>
      obtain ⟨hidxEq, hidxLe⟩ := indexOf_first_filter isExpenseP root.children p0 t hcase
      have hfind : findExpensePs root = p0 :: t := by
        rw [findExpensePs_eq_filter hone, hcase]
      have hinit : (runInitState root tpl.files mz).insertIdx
          = List.findIdx isExpenseP root.children := by
        simp only [runInitState, hfind, indexOfElem]
        exact hidxEq
      rw [hinit, hch]
      exact hidxLe
  obtain ⟨out, hok, hbody, hnbB, hlogB⟩ := run_ok g data tpl env root hroot mElem params mz
    hz hsec hhpf hman hpar hone hmz
  obtain ⟨blocks, h1, h2, h3, h4, h5, h6, h7⟩ :=
    processRecords_spec env params data (runInitState root tpl.files mz) hle
  refine ⟨out, blocks, hok, ?_, h2, h4, ?_, h5⟩
  · rw [hbody]
    show ((processRecords env params data (runInitState root tpl.files mz)).children).flatMap
      expContrib = blocks
    rw [h1]
    rw [List.flatMap_append, List.flatMap_append]
    have hsurv : ∀ x ∈ root.children.filter (fun x => !(isExpenseP x)),
        expContrib x = [] := by
      intro x hx
      have hxf := (List.mem_filter.mp hx).2
      exact expContrib_eq_nil (by simpa using hxf)
    have hnil1 : (List.take (runInitState root tpl.files mz).insertIdx
        (runInitState root tpl.files mz).children).flatMap expContrib = [] :=
      flatMap_eq_nil_of_forall _ (fun b hb => hsurv b
        (by rw [← hch]; exact List.mem_of_mem_take hb))
    have hnil2 : (List.drop (runInitState root tpl.files mz).insertIdx
        (runInitState root tpl.files mz).children).flatMap expContrib = [] :=
      flatMap_eq_nil_of_forall _ (fun b hb => hsurv b
        (by rw [← hch]; exact List.mem_of_mem_drop hb))
    have hid : blocks.flatMap expContrib = blocks :=
      flatMap_id_of_single _ (fun b hb => (h3 b hb).2)
    rw [hnil1, hnil2, hid]
    simp
  · intro r hr pth hpth hfail
    rw [hlogB]
    exact h7 r hr pth hpth hfail

theorem claim_C6_witness :
    ∃ (out : RunOutput) (blocks : List Elem),
      (run 0 [⟨0, "Z", RawPaths.listV ["broken.png"]⟩] wTpl (fun _ => none)).1
        = Except.ok out ∧
      findExpensePs out.body = blocks ∧
      blocks.length = ([⟨0, "Z", RawPaths.listV ["broken.png"]⟩] : List DataRow).length ∧
      blocks.map blockTitle
        = ([⟨0, "Z", RawPaths.listV ["broken.png"]⟩] : List DataRow).map
            (fun r => some (rowTitle r)) ∧
      (∀ r ∈ ([⟨0, "Z", RawPaths.listV ["broken.png"]⟩] : List DataRow),
        ∀ pth ∈ normalizePaths r.imgPaths, (fun _ : String => (none : Option ImgSpec)) pth = none →
        LogEntry.imgLoadFail (r.dataIdx + 1) pth ∈ out.log) ∧
      (∀ j, j < ([⟨0, "Z", RawPaths.listV ["broken.png"]⟩] : List DataRow).length →
        (∀ pth ∈ normalizePaths ((([⟨0, "Z", RawPaths.listV ["broken.png"]⟩] :
            List DataRow).getD j default).imgPaths),
          (fun _ : String => (none : Option ImgSpec)) pth = none) →
        imageCellParas (blocks.getD j default)
          = some [emptyImgPara {} (imgHorzsizeOf {})]) :=
  claim_C6 0 [⟨0, "Z", RawPaths.listV ["broken.png"]⟩] wTpl (fun _ => none) wRoot wHpf wMan
    {} 0 rfl rfl rfl rfl rfl (by decide) rfl

/-! ## C8: decimal printing round-trips through Python `int` -/

theorem digit_toNat : ∀ m : ℕ, m < 10 → (Char.ofNat (48 + m)).toNat = 48 + m := by
  intro m hm
  interval_cases m <;> decide

theorem digit_isDigit : ∀ m : ℕ, m < 10 → (Char.ofNat (48 + m)).isDigit = true := by
  intro m hm
  interval_cases m <;> decide

theorem natDigits_all_digit : ∀ n : ℕ, ∀ c ∈ natDigits n, c.isDigit = true := by
  intro n
  induction n using Nat.strong_induction_on with
  | _ n ih =>
    intro c hc
    rw [natDigits] at hc
    by_cases h : n < 10
    · rw [dif_pos h] at hc
      rcases List.mem_singleton.mp hc with rfl
      exact digit_isDigit n h
    · rw [dif_neg h] at hc
      rcases List.mem_append.mp hc with h1 | h2
      · exact ih (n / 10) (Nat.div_lt_self (by omega) (by omega)) c h1
      · rcases List.mem_singleton.mp h2 with rfl
        exact digit_isDigit (n % 10) (Nat.mod_lt n (by omega))

theorem natDigits_ne_nil (n : ℕ) : natDigits n ≠ [] := by
  rw [natDigits]
  by_cases h : n < 10
  · rw [dif_pos h]; simp
  · rw [dif_neg h]; simp

theorem digitsVal_append (l : List Char) (c : Char) :
    digitsVal (l ++ [c]) = 10 * digitsVal l + (c.toNat - 48) := by
  simp [digitsVal, List.foldl_append]

theorem digitsVal_natDigits : ∀ n : ℕ, digitsVal (natDigits n) = n := by
  intro n
  induction n using Nat.strong_induction_on with
  | _ n ih =>
    rw [natDigits]
    by_cases h : n < 10
    · rw [dif_pos h]
      have h1 : digitsVal [Char.ofNat (48 + n)] = (Char.ofNat (48 + n)).toNat - 48 := by
        simp [digitsVal]
      rw [h1, digit_toNat n h]
      omega
    · rw [dif_neg h]
      rw [digitsVal_append, ih (n / 10) (Nat.div_lt_self (by omega) (by omega)),
        digit_toNat (n % 10) (Nat.mod_lt n (by omega))]
      omega

theorem pyIntDigits_digits : ∀ l : List Char, (∀ c ∈ l, c.isDigit = true) →
    pyIntDigits l true = some l := by
  intro l
  induction l with
  | nil => intro _; rfl
  | cons c cs ih =>
    intro h
    have hc := h c (List.mem_cons_self c cs)
    simp only [pyIntDigits, hc, if_true]
    rw [ih (fun x hx => h x (List.mem_cons_of_mem c hx))]
    rfl

theorem pyIntDigits_cons_digits (c : Char) (cs : List Char) (b : Bool)
    (hc : c.isDigit = true) (hcs : ∀ x ∈ cs, x.isDigit = true) :
    pyIntDigits (c :: cs) b = some (c :: cs) := by
  simp only [pyIntDigits, hc, if_true]
  rw [pyIntDigits_digits cs hcs]
  rfl

theorem digit_not_ws (c : Char) (h : c.isDigit = true) :
    (decide (c = ' ' ∨ c = '\t' ∨ c = '\n' ∨ c = '\r')) = false := by
  by_cases h1 : c = ' '
  · rw [h1] at h; exact absurd h (by decide)
  · by_cases h2 : c = '\t'
    · rw [h2] at h; exact absurd h (by decide)
    · by_cases h3 : c = '\n'
      · rw [h3] at h; exact absurd h (by decide)
      · by_cases h4 : c = '\r'
        · rw [h4] at h; exact absurd h (by decide)
        · simp [h1, h2, h3, h4]

theorem dropWhile_cons_of_neg (p : Char → Bool) (a : Char) (t : List Char)
    (h : p a = false) : (a :: t).dropWhile p = a :: t := by
  rw [List.dropWhile_cons, h]
  rfl

theorem dropWhile_ws_of_digits (l : List Char) (h : ∀ c ∈ l, c.isDigit = true) :
    l.dropWhile (fun c => decide (c = ' ' ∨ c = '\t' ∨ c = '\n' ∨ c = '\r')) = l := by
  cases l with
  | nil => rfl
  | cons a t =>
    exact dropWhile_cons_of_neg _ a t (digit_not_ws a (h a (List.mem_cons_self a t)))

theorem digit_ne_dash (c : Char) (hc : c.isDigit = true) : ¬ (c = '-') := by
  intro he
  rw [he] at hc
  exact absurd hc (by decide)

theorem digit_ne_plus (c : Char) (hc : c.isDigit = true) : ¬ (c = '+') := by
  intro he
  rw [he] at hc
  exact absurd hc (by decide)

theorem pyInt_natStr (n : ℕ) : pyInt (natStr n) = some (n : ℤ) := by
  have hdig := natDigits_all_digit n
  have hdata : (natStr n).data = natDigits n := rfl
  have hrev : ∀ c ∈ (natDigits n).reverse, c.isDigit = true := by
    intro c hcm
    exact hdig c (List.mem_reverse.mp hcm)
  obtain ⟨c, cs, hcc⟩ : ∃ c cs, natDigits n = c :: cs := by
    cases h : natDigits n with
    | nil => exact absurd h (natDigits_ne_nil n)
    | cons c cs => exact ⟨c, cs, rfl⟩
  have hc : c.isDigit = true := hdig c (by rw [hcc]; exact List.mem_cons_self c cs)
  have hcs : ∀ x ∈ cs, x.isDigit = true :=
    fun x hx => hdig x (by rw [hcc]; exact List.mem_cons_of_mem c hx)
  unfold pyInt
  dsimp only
  rw [hdata, dropWhile_ws_of_digits (natDigits n) hdig,
    dropWhile_ws_of_digits (natDigits n).reverse hrev, List.reverse_reverse, hcc]
  dsimp only
  rw [if_neg (digit_ne_dash c hc), if_neg (digit_ne_plus c hc),
    pyIntDigits_cons_digits c cs false hc hcs, ← hcc]
  simp [digitsVal_natDigits]

theorem pyInt_intStr (z : ℤ) : pyInt (intStr z) = some z := by
  by_cases hz : z < 0
  · have hdig := natDigits_all_digit z.natAbs
    have hdata : (intStr z).data = '-' :: natDigits z.natAbs := by
      unfold intStr
      rw [if_pos hz]
    obtain ⟨d, ds, hdd⟩ : ∃ d ds, (natDigits z.natAbs).reverse = d :: ds := by
      cases h : (natDigits z.natAbs).reverse with
      | nil =>
        exact absurd (List.reverse_eq_nil_iff.mp h) (natDigits_ne_nil z.natAbs)
      | cons d ds => exact ⟨d, ds, rfl⟩
    have hd : d.isDigit = true :=
      hdig d (List.mem_reverse.mp (by rw [hdd]; exact List.mem_cons_self d ds))
    unfold pyInt
    dsimp only
    rw [hdata, dropWhile_cons_of_neg _ '-' (natDigits z.natAbs) (by decide)]
    have hrevstep : (('-' :: natDigits z.natAbs).reverse.dropWhile
        (fun c => decide (c = ' ' ∨ c = '\t' ∨ c = '\n' ∨ c = '\r'))).reverse
        = '-' :: natDigits z.natAbs := by
      rw [List.reverse_cons, hdd]
      have : ((d :: ds) ++ ['-']).dropWhile
          (fun c => decide (c = ' ' ∨ c = '\t' ∨ c = '\n' ∨ c = '\r'))
          = (d :: ds) ++ ['-'] := by
        rw [List.cons_append]
        exact dropWhile_cons_of_neg _ d (ds ++ ['-']) (digit_not_ws d hd)
      rw [this, ← hdd, ← List.reverse_cons, List.reverse_reverse]
    rw [hrevstep]
    dsimp only
    rw [if_pos rfl]
    obtain ⟨c, cs, hcc⟩ : ∃ c cs, natDigits z.natAbs = c :: cs := by
      cases h : natDigits z.natAbs with
      | nil => exact absurd h (natDigits_ne_nil z.natAbs)
      | cons c cs => exact ⟨c, cs, rfl⟩
    have hc : c.isDigit = true := hdig c (by rw [hcc]; exact List.mem_cons_self c cs)
    have hcs : ∀ x ∈ cs, x.isDigit = true :=
      fun x hx => hdig x (by rw [hcc]; exact List.mem_cons_of_mem c hx)
    rw [hcc, pyIntDigits_cons_digits c cs false hc hcs, ← hcc]
    have hval : (digitsVal (natDigits z.natAbs) : ℤ) = -z := by
      rw [digitsVal_natDigits]
      omega
    simp [hval]
  · have hz' : ¬ z < 0 := hz
    have h1 : intStr z = natStr z.natAbs := by
      unfold intStr
      rw [if_neg hz']
    rw [h1, pyInt_natStr]
    congr 1
    omega

theorem pySplitGo_ne_nil : ∀ (sep s : List Char), pySplitGo sep s ≠ [] := by
  intro sep s
  rw [pySplitGo.eq_def]
  cases s with
  | nil => simp
  | cons c rest =>
    dsimp only
    split
    · simp
    · split <;> simp

theorem pySplitGo_sep (c₀ : Char) (cs b : List Char) :
    pySplitGo (c₀ :: cs) ((c₀ :: cs) ++ b) = [] :: pySplitGo (c₀ :: cs) b := by
  have hstart : listStarts (c₀ :: cs) ((c₀ :: cs) ++ b) = true := listStarts_append _ _
  rw [pySplitGo.eq_def]
  simp only [List.cons_append]
  rw [dif_pos ⟨List.cons_ne_nil c₀ cs, by simpa using hstart⟩]
  congr 1
  show pySplitGo (c₀ :: cs) (List.drop (c₀ :: cs).length ((c₀ :: cs) ++ b))
    = pySplitGo (c₀ :: cs) b
  rw [List.drop_left]

theorem pySplitGo_pre (c₀ : Char) (cs : List Char) :
    ∀ (a rest : List Char), c₀ ∉ a →
      pySplitGo (c₀ :: cs) (a ++ rest)
        = (a ++ (pySplitGo (c₀ :: cs) rest).headD [])
            :: (pySplitGo (c₀ :: cs) rest).tail := by
  intro a
  induction a with
  | nil =>
    intro rest _
    simp only [List.nil_append]
    cases h : pySplitGo (c₀ :: cs) rest with
    | nil => exact absurd h (pySplitGo_ne_nil _ _)
    | cons p ps => simp
  | cons x a' ih =>
    intro rest hmem
    have hx : ¬ (c₀ = x) := by
      intro he
      rw [he] at hmem
      exact hmem (List.mem_cons_self x a')
    rw [pySplitGo.eq_def]
    simp only [List.cons_append]
    rw [dif_neg ?hneg]
    case hneg =>
      intro hcond
      have hls := hcond.2
      simp only [listStarts, Bool.and_eq_true, decide_eq_true_eq] at hls
      exact hx hls.1
    rw [ih rest (fun hm => hmem (List.mem_cons_of_mem x hm))]

theorem intStr_chars (z : ℤ) : ∀ c ∈ (intStr z).data, c.isDigit = true ∨ c = '-' := by
  intro c hc
  unfold intStr at hc
  by_cases hz : z < 0
  · rw [if_pos hz] at hc
    have hc' : c ∈ '-' :: natDigits z.natAbs := hc
    rcases List.mem_cons.mp hc' with rfl | hm
    · right; rfl
    · left; exact natDigits_all_digit _ c hm
  · rw [if_neg hz] at hc
    left
    exact natDigits_all_digit _ c hc

theorem slash_not_mem_intStr (z : ℤ) : '/' ∉ (intStr z).data := by
  intro h
  rcases intStr_chars z '/' h with hd | he
  · exact absurd hd (by decide)
  · exact absurd he (by decide)

theorem dot_not_mem_intStr (z : ℤ) : '.' ∉ (intStr z).data := by
  intro h
  rcases intStr_chars z '.' h with hd | he
  · exact absurd hd (by decide)
  · exact absurd he (by decide)

theorem parseBinIdx_mkBinName (n : ℤ) (ext : String) :
    parseBinIdx (mkBinName n ext) = some n := by
  have hguard : (mkBinName n ext).data
      = "BinData/image".data ++ ((intStr n).data ++ ('.' :: ext.data)) := by
    show ("BinData/" ++ ("image" ++ intStr n) ++ "." ++ ext).data = _
    simp [String.data_append, List.append_assoc]
  have hsep : (("/image".data : List Char)) = '/' :: "image".data := by decide
  have hsplit1 : (mkBinName n ext).data
      = "BinData".data ++ ("/image".data ++ ((intStr n).data ++ ('.' :: ext.data))) := by
    rw [hguard]
    have h1 : "BinData/image".data = "BinData".data ++ "/image".data := by decide
    rw [h1, List.append_assoc]
  have hdot : pySplitGo ('/' :: "image".data) ('.' :: ext.data)
      = ('.' :: (pySplitGo ('/' :: "image".data) ext.data).headD [])
        :: (pySplitGo ('/' :: "image".data) ext.data).tail := by
    have h := pySplitGo_pre '/' "image".data ['.'] ext.data (by decide)
    simpa using h
  have hsplitname : pySplitGo "/image".data (mkBinName n ext).data
      = "BinData".data
        :: ((intStr n).data ++ ('.' :: ((pySplitGo ('/' :: "image".data) ext.data).headD [])))
        :: ((pySplitGo ('/' :: "image".data) ext.data).tail) := by
    rw [hsplit1, hsep]
    rw [pySplitGo_pre '/' "image".data "BinData".data _ (by decide)]
    rw [pySplitGo_sep '/' "image".data ((intStr n).data ++ ('.' :: ext.data))]
    simp only [List.headD_cons, List.tail_cons, List.append_nil]
    rw [pySplitGo_pre '/' "image".data (intStr n).data ('.' :: ext.data)
      (slash_not_mem_intStr n)]
    rw [hdot]
    simp only [List.headD_cons, List.tail_cons]
  have hpiece : pySplit "/image" (mkBinName n ext)
      = "BinData"
        :: String.mk ((intStr n).data
            ++ ('.' :: ((pySplitGo ('/' :: "image".data) ext.data).headD [])))
        :: ((pySplitGo ('/' :: "image".data) ext.data).tail).map String.mk := by
    unfold pySplit
    rw [hsplitname]
    rfl
  have hsep2 : ((".".data : List Char)) = '.' :: ([] : List Char) := by decide
  have hdotp : pySplitGo ('.' :: ([] : List Char))
      ('.' :: ((pySplitGo ('/' :: "image".data) ext.data).headD []))
      = [] :: pySplitGo ('.' :: ([] : List Char))
          ((pySplitGo ('/' :: "image".data) ext.data).headD []) := by
    have h := pySplitGo_sep '.' ([] : List Char)
      ((pySplitGo ('/' :: "image".data) ext.data).headD [])
    simpa using h
  have hpiece2 : pySplit "."
      (String.mk ((intStr n).data
        ++ ('.' :: ((pySplitGo ('/' :: "image".data) ext.data).headD []))))
      = intStr n
        :: (pySplitGo ('.' :: ([] : List Char))
            ((pySplitGo ('/' :: "image".data) ext.data).headD [])).map String.mk := by
    unfold pySplit
    rw [hsep2]
    show (pySplitGo ('.' :: ([] : List Char)) ((intStr n).data
      ++ ('.' :: ((pySplitGo ('/' :: "image".data) ext.data).headD [])))).map String.mk = _
    rw [pySplitGo_pre '.' ([] : List Char) (intStr n).data _ (dot_not_mem_intStr n)]
    rw [hdotp]
    simp only [List.headD_cons, List.tail_cons, List.append_nil]
    rfl
  unfold parseBinIdx
  rw [if_pos ?hg]
  case hg =>
    rw [hguard]
    exact listStarts_append _ _
  rw [hpiece]
  dsimp only
  rw [hpiece2]
  dsimp only
  exact pyInt_intStr n

theorem binFold_ge_init : ∀ (files : List (String × Content)) (acc : ℤ),
    acc ≤ files.foldl (fun idx p =>
      match parseBinIdx p.1 with
      | some n => max idx n
      | none => idx) acc := by
  intro files
  induction files with
  | nil => intro acc; exact le_refl acc
  | cons f t ih =>
    intro acc
    refine le_trans ?_ (ih _)
    dsimp only
    cases hp : parseBinIdx f.1 with
    | none => exact le_refl acc
    | some m => exact le_max_left acc m

theorem maxBinaryIdx_ge : ∀ (files : List (String × Content)) (acc : ℤ),
    ∀ f ∈ files, ∀ m : ℤ, parseBinIdx f.1 = some m →
      m ≤ files.foldl (fun idx p =>
        match parseBinIdx p.1 with
        | some n => max idx n
        | none => idx) acc := by
  intro files
  induction files with
  | nil => intro acc f hf; cases hf
  | cons g t ih =>
    intro acc f hf m hm
    rcases List.mem_cons.mp hf with rfl | hmem
    · simp only [List.foldl_cons, hm]
      exact le_trans (le_max_right acc m) (binFold_ge_init t _)
    · simp only [List.foldl_cons]
      exact ih _ f hmem m hm

theorem maxBinaryIdx_nonneg (files : List (String × Content)) : 0 ≤ maxBinaryIdx files :=
  binFold_ge_init files 0

theorem dictSet_append_of_fresh {α : Type} (d : List (String × α)) (k : String) (v : α)
    (h : ∀ p ∈ d, ¬ (p.1 = k)) : dictSet d k v = d ++ [(k, v)] := by
  have hany : d.any (fun p => decide (p.1 = k)) = false := by
    apply List.any_eq_false.mpr
    intro p hp
    simp [h p hp]
  unfold dictSet
  rw [if_neg (by simp [hany])]

theorem chain'_snoc_lt (ids : List ℤ) (bc : ℤ) (hch : List.Chain' (· < ·) ids)
    (hub : ∀ i ∈ ids, i < bc) : List.Chain' (· < ·) (ids ++ [bc]) := by
  rw [List.chain'_append]
  refine ⟨hch, List.chain'_singleton bc, ?_⟩
  intro x hx y hy
  have hy' : y = bc := by
    have := hy
    simp at this
    omega
  obtain ⟨hne, hxl⟩ := List.mem_getLast?_eq_getLast hx
  have hxm : x ∈ ids := hxl ▸ List.getLast_mem hne
  rw [hy']
  exact hub x hxm

theorem map_parse_mem {nb : List (String × String)} {ids : List ℤ}
    (hmap : nb.map (fun b => parseBinIdx b.1) = ids.map some) :
    ∀ b ∈ nb, ∃ i ∈ ids, parseBinIdx b.1 = some i := by
  intro b hb
  have h1 : parseBinIdx b.1 ∈ nb.map (fun b => parseBinIdx b.1) :=
    List.mem_map.mpr ⟨b, hb, rfl⟩
  rw [hmap] at h1
  obtain ⟨i, hi, he⟩ := List.mem_map.mp h1
  exact ⟨i, hi, he.symm⟩

theorem packRow_ids (env : Env) (imgs : List Img) (items : List LayoutItem)
    (colsN rIdx printedIdx : ℕ) (lo : ℤ) :
    ∀ (fuel cIdx : ℕ), fuel = colsN - cIdx →
      ∀ (bc : ℤ) (nb : List (String × String)) (log : List LogEntry) (ids : List ℤ),
      nb.map (fun b => parseBinIdx b.1) = ids.map some →
      List.Chain' (· < ·) ids →
      (∀ i ∈ ids, lo ≤ i ∧ i < bc) →
      lo ≤ bc →
      ∃ ids' : List ℤ,
        (packRow env imgs items colsN rIdx printedIdx cIdx bc nb log).2.2.1.map
            (fun b => parseBinIdx b.1) = ids'.map some ∧
        List.Chain' (· < ·) ids' ∧
        (∀ i ∈ ids', lo ≤ i ∧
          i < (packRow env imgs items colsN rIdx printedIdx cIdx bc nb log).2.1) ∧
        bc ≤ (packRow env imgs items colsN rIdx printedIdx cIdx bc nb log).2.1 := by
  intro fuel
  induction fuel with
  | zero =>
    intro cIdx hf bc nb log ids hmap hch hbd hlo
    have hnc : ¬ cIdx < colsN := by omega
    rw [packRow, dif_neg hnc]
    exact ⟨ids, hmap, hch, hbd, le_refl bc⟩
  | succ f ih =>
    intro cIdx hf bc nb log ids hmap hch hbd hlo
    by_cases hc : cIdx < colsN
    · rw [packRow, dif_pos hc]
      by_cases hi : rIdx * colsN + cIdx < items.length
      · rw [if_pos hi]
        dsimp only
        cases hb : (env (imgs.getD (items.getD (rIdx * colsN + cIdx) default).idx
            default).path).bind (fun s => s.bytes) with
        | some bs =>
          dsimp only
          set ext := extOf (imgs.getD (items.getD (rIdx * colsN + cIdx) default).idx
            default).path with hext
          have hkey : parseBinIdx ("BinData/" ++ ("image" ++ intStr bc) ++ "." ++ ext)
              = some bc := parseBinIdx_mkBinName bc ext
          have hfresh : ∀ p ∈ nb,
              ¬ (p.1 = "BinData/" ++ ("image" ++ intStr bc) ++ "." ++ ext) := by
            intro p hp he
            obtain ⟨i, hi2, hpe⟩ := map_parse_mem hmap p hp
            rw [he, hkey] at hpe
            injection hpe with h7
            have h8 := (hbd i hi2).2
            omega
          have hset := dictSet_append_of_fresh nb
            ("BinData/" ++ ("image" ++ intStr bc) ++ "." ++ ext) bs hfresh
          rw [hset]
          have hmap' : (nb ++ [("BinData/" ++ ("image" ++ intStr bc) ++ "." ++ ext,
              bs)]).map (fun b => parseBinIdx b.1) = (ids ++ [bc]).map some := by
            simp [hmap, hkey]
          have hch' := chain'_snoc_lt ids bc hch (fun i hi3 => (hbd i hi3).2)
          have hbd' : ∀ i ∈ ids ++ [bc], lo ≤ i ∧ i < bc + 1 := by
            intro i hi3
            rcases List.mem_append.mp hi3 with h4 | h4
            · obtain ⟨h5, h6⟩ := hbd i h4
              exact ⟨h5, by omega⟩
            · rcases List.mem_singleton.mp h4 with rfl
              exact ⟨hlo, by omega⟩
          obtain ⟨ids', H1, H2, H3, H4⟩ := ih (cIdx + 1) (by omega) (bc + 1) _ log
            (ids ++ [bc]) hmap' hch' hbd' (by omega)
          exact ⟨ids', H1, H2, H3, le_trans (by omega) H4⟩
        | none =>
          dsimp only
          have heq : bc + 1 - 1 = bc := by ring
          rw [heq]
          exact ih (cIdx + 1) (by omega) bc nb _ ids hmap hch hbd hlo
      · rw [if_neg hi]
        exact ⟨ids, hmap, hch, hbd, le_refl bc⟩
    · rw [packRow, dif_neg hc]
      exact ⟨ids, hmap, hch, hbd, le_refl bc⟩

theorem packGrid_ids (env : Env) (imgs : List Img) (items : List LayoutItem)
    (rowsN colsN printedIdx : ℕ) (lo : ℤ) :
    ∀ (fuel rIdx : ℕ), fuel = rowsN - rIdx →
      ∀ (bc : ℤ) (nb : List (String × String)) (log : List LogEntry) (ids : List ℤ),
      nb.map (fun b => parseBinIdx b.1) = ids.map some →
      List.Chain' (· < ·) ids →
      (∀ i ∈ ids, lo ≤ i ∧ i < bc) →
      lo ≤ bc →
      ∃ ids' : List ℤ,
        (packGrid env imgs items rowsN colsN printedIdx rIdx bc nb log).2.2.1.map
            (fun b => parseBinIdx b.1) = ids'.map some ∧
        List.Chain' (· < ·) ids' ∧
        (∀ i ∈ ids', lo ≤ i ∧
          i < (packGrid env imgs items rowsN colsN printedIdx rIdx bc nb log).2.1) ∧
        bc ≤ (packGrid env imgs items rowsN colsN printedIdx rIdx bc nb log).2.1 := by
  intro fuel
  induction fuel with
  | zero =>
    intro rIdx hf bc nb log ids hmap hch hbd hlo
    have hnr : ¬ rIdx < rowsN := by omega
    rw [packGrid, dif_neg hnr]
    exact ⟨ids, hmap, hch, hbd, le_refl bc⟩
  | succ f ih =>
    intro rIdx hf bc nb log ids hmap hch hbd hlo
    by_cases hr : rIdx < rowsN
    · rw [packGrid, dif_pos hr]
      dsimp only
      obtain ⟨ids1, A1, A2, A3, A4⟩ := packRow_ids env imgs items colsN rIdx printedIdx lo
        (colsN - 0) 0 rfl bc nb log ids hmap hch hbd hlo
      obtain ⟨ids2, B1, B2, B3, B4⟩ := ih (rIdx + 1) (by omega)
        ((packRow env imgs items colsN rIdx printedIdx 0 bc nb log).2.1)
        ((packRow env imgs items colsN rIdx printedIdx 0 bc nb log).2.2.1)
        ((packRow env imgs items colsN rIdx printedIdx 0 bc nb log).2.2.2)
        ids1 A1 A2 A3 (le_trans hlo A4)
      exact ⟨ids2, B1, B2, B3, le_trans A4 B4⟩
    · rw [packGrid, dif_neg hr]
      exact ⟨ids, hmap, hch, hbd, le_refl bc⟩

theorem recordImgRows_ids (env : Env) (params : TemplateParams) (row : DataRow)
    (lo bc : ℤ) (nb : List (String × String)) (log : List LogEntry) (ids : List ℤ)
    (hmap : nb.map (fun b => parseBinIdx b.1) = ids.map some)
    (hch : List.Chain' (· < ·) ids)
    (hbd : ∀ i ∈ ids, lo ≤ i ∧ i < bc)
    (hlo : lo ≤ bc) :
    ∃ ids' : List ℤ,
      (recordImgRows env params row bc nb log).2.2.1.map
          (fun b => parseBinIdx b.1) = ids'.map some ∧
      List.Chain' (· < ·) ids' ∧
      (∀ i ∈ ids', lo ≤ i ∧ i < (recordImgRows env params row bc nb log).2.1) ∧
      bc ≤ (recordImgRows env params row bc nb log).2.1 := by
  unfold recordImgRows
  dsimp only
  by_cases he : (normalizePaths row.imgPaths).isEmpty
  · rw [if_pos he]
    exact ⟨ids, hmap, hch, hbd, le_refl bc⟩
  · rw [if_neg he]
    by_cases h2 : (loadImgs env (normalizePaths row.imgPaths) (row.dataIdx + 1) log).1.isEmpty
    · rw [if_pos h2]
      exact ⟨ids, hmap, hch, hbd, le_refl bc⟩
    · rw [if_neg h2]
      cases hl : layout (loadImgs env (normalizePaths row.imgPaths) (row.dataIdx + 1) log).1
          params.imgWmm params.imgHmm with
      | none => exact ⟨ids, hmap, hch, hbd, le_refl bc⟩
      | some lr =>
        dsimp only
        by_cases h3 : lr.items.isEmpty
        · rw [if_pos h3]
          exact ⟨ids, hmap, hch, hbd, le_refl bc⟩
        · rw [if_neg h3]
          cases hg : lr.grid with
          | none => exact ⟨ids, hmap, hch, hbd, le_refl bc⟩
          | some g =>
            exact packGrid_ids env _ lr.items g.1 g.2 (row.dataIdx + 1) lo (g.1 - 0) 0 rfl
              bc nb _ ids hmap hch hbd hlo

theorem processRecords_ids (env : Env) (params : TemplateParams) (lo : ℤ) :
    ∀ (rows : List DataRow) (st : LoopState) (ids : List ℤ),
      st.newBinaries.map (fun b => parseBinIdx b.1) = ids.map some →
      List.Chain' (· < ·) ids →
      (∀ i ∈ ids, lo ≤ i ∧ i < st.binCounter) →
      lo ≤ st.binCounter →
      ∃ ids' : List ℤ,
        (processRecords env params rows st).newBinaries.map
            (fun b => parseBinIdx b.1) = ids'.map some ∧
        List.Chain' (· < ·) ids' ∧
        (∀ i ∈ ids', lo ≤ i ∧
          i < (processRecords env params rows st).binCounter) ∧
        st.binCounter ≤ (processRecords env params rows st).binCounter := by
  intro rows
  induction rows with
  | nil =>
    intro st ids hmap hch hbd hlo
    exact ⟨ids, hmap, hch, hbd, le_refl _⟩
  | cons r rs ih =>
    intro st ids hmap hch hbd hlo
    obtain ⟨ids1, A1, A2, A3, A4⟩ := recordImgRows_ids env params r lo st.binCounter
      st.newBinaries st.log ids hmap hch hbd hlo
    obtain ⟨ids2, B1, B2, B3, B4⟩ := ih (processRecord env params r st) ids1 A1 A2 A3
      (le_trans hlo A4)
    exact ⟨ids2, B1, B2, B3, le_trans A4 B4⟩

/-- **C8.** On a valid template, every newly allocated binary-asset id is
drawn from the run-scoped counter seeded one past the greatest numeric id
among the template's `BinData/imageN` entries: the ids embedded in the
emitted asset names (recovered by the same `BinData/imageN.*` parser the
seeding uses) are strictly increasing in emission order, every one
exceeds that template maximum, and no new asset name collides with an
entry already present in the template archive. -/
theorem claim_C8 (g : ℕ) (data : List DataRow) (tpl : Template) (env : Env)
    (root hroot mElem : Elem) (params : TemplateParams) (mz : ℤ)
    (hz : tpl.isZip = true)
    (hsec : lookupD tpl.files SEC_KEY = some (Content.xml root))
    (hhpf : lookupD tpl.files HPF_KEY = some (Content.xml hroot))
    (hman : hroot.findTag ⟨hroot.tag.ns, "manifest"⟩ = some mElem)
    (hpar : readTemplateParams (findExpensePs root) = Except.ok params)
    (hone : ∀ p ∈ root.children, (matchRuns p).length ≤ 1)
    (hmz : maxZOrder (Elem.node root.tag root.attrs
        (root.children.filter (fun x => !(isExpenseP x))) root.txt) = Except.ok mz) :
    ∃ (out : RunOutput) (ids : List ℤ),
      (run g data tpl env).1 = Except.ok out ∧
      out.newBinaries.map (fun b => parseBinIdx b.1) = ids.map some ∧
      List.Chain' (· < ·) ids ∧
      (∀ i ∈ ids, maxBinaryIdx tpl.files < i) ∧
      (∀ b ∈ out.newBinaries, ∀ f ∈ tpl.files, b.1 ≠ f.1) := by
  obtain ⟨out, hok, hbody, hnbB, hlogB⟩ := run_ok g data tpl env root hroot mElem params mz
    hz hsec hhpf hman hpar hone hmz
  have hbc0 : (runInitState root tpl.files mz).binCounter = maxBinaryIdx tpl.files + 1 := rfl
  obtain ⟨ids, H1, H2, H3, H4⟩ := processRecords_ids env params (maxBinaryIdx tpl.files + 1)
    data (runInitState root tpl.files mz) [] rfl List.chain'_nil
    (by intro i hi; cases hi) (le_of_eq hbc0.symm)
  refine ⟨out, ids, hok, ?_, H2, ?_, ?_⟩
  · rw [hnbB]
    exact H1
  · intro i hi
    have h5 := (H3 i hi).1
    omega
  · intro b hb f hf he
    rw [hnbB] at hb
    obtain ⟨i, hi, hpe⟩ := map_parse_mem H1 b hb
    have hgt : maxBinaryIdx tpl.files < i := by
      have h5 := (H3 i hi).1
      omega
    have hle : i ≤ maxBinaryIdx tpl.files :=
      maxBinaryIdx_ge tpl.files 0 f hf i (by rw [← he]; exact hpe)
    omega

theorem claim_C8_witness :
    ∃ (out : RunOutput) (ids : List ℤ),
      (run 0 [⟨0, "W", RawPaths.listV ["a.png"]⟩] wTpl
          (fun _ => some ⟨8, 8, none, some "B"⟩)).1 = Except.ok out ∧
      out.newBinaries.map (fun b => parseBinIdx b.1) = ids.map some ∧
      List.Chain' (· < ·) ids ∧
      (∀ i ∈ ids, maxBinaryIdx wTpl.files < i) ∧
      (∀ b ∈ out.newBinaries, ∀ f ∈ wTpl.files, b.1 ≠ f.1) :=
  claim_C8 0 [⟨0, "W", RawPaths.listV ["a.png"]⟩] wTpl
    (fun _ => some ⟨8, 8, none, some "B"⟩) wRoot wHpf wMan {} 0
    rfl rfl rfl rfl rfl (by decide) rfl

/-! ## C5: fatal errors and when the run aborts -/

theorem updateContentHpf_noManifest (hroot : Elem) (nbs : List (String × String))
    (hman : hroot.findTag ⟨hroot.tag.ns, "manifest"⟩ = none) :
    updateContentHpf (Content.xml hroot) nbs
      = Except.error (RunError.valueError ErrKind.manifestNotFound) := by
  simp only [updateContentHpf, parseXmlContent, hman]

theorem run_noman (g : ℕ) (data : List DataRow) (tpl : Template) (env : Env)
    (root hroot : Elem) (params : TemplateParams) (mz : ℤ)
    (hz : tpl.isZip = true)
    (hsec : lookupD tpl.files SEC_KEY = some (Content.xml root))
    (hhpf : lookupD tpl.files HPF_KEY = some (Content.xml hroot))
    (hman : hroot.findTag ⟨hroot.tag.ns, "manifest"⟩ = none)
    (hpar : readTemplateParams (findExpensePs root) = Except.ok params)
    (hone : ∀ p ∈ root.children, (matchRuns p).length ≤ 1)
    (hmz : maxZOrder (Elem.node root.tag root.attrs
        (root.children.filter (fun x => !(isExpenseP x))) root.txt) = Except.ok mz) :
    (run g data tpl env).1 = Except.error (RunError.valueError ErrKind.manifestNotFound)
      ∨ ∃ out, (run g data tpl env).1 = Except.ok out ∧ out.newBinaries = [] := by
  have hrem : removeAll root.children (findExpensePs root)
      = some (root.children.filter (fun x => !(isExpenseP x))) := by
    rw [findExpensePs_eq_filter hone]
    exact removeAll_filter isExpenseP root.children
  have hzz : ¬ (tpl.isZip = false) := by simp [hz]
  simp only [run, if_neg hzz, hsec, hhpf, parseXmlContent, hpar, hrem, hmz, runInitState]
  by_cases hnb : (processRecords env params data
      ⟨root.children.filter (fun x => !(isExpenseP x)),
       (match findExpensePs root with
        | [] => root.children.length
        | p0 :: _ => indexOfElem root.children p0),
       mz + 1, maxBinaryIdx tpl.files + 1, idCounterSeed, [], []⟩).newBinaries.isEmpty
  · right
    rw [if_pos hnb]
    exact ⟨_, rfl, by simpa using hnb⟩
  · left
    rw [if_neg hnb]
    have hnames := processRecords_names env params data
      ⟨root.children.filter (fun x => !(isExpenseP x)),
       (match findExpensePs root with
        | [] => root.children.length
        | p0 :: _ => indexOfElem root.children p0),
       mz + 1, maxBinaryIdx tpl.files + 1, idCounterSeed, [], []⟩
      (by intro kv hkv; cases hkv)
    have hlook : lookupD
        ((processRecords env params data
          ⟨root.children.filter (fun x => !(isExpenseP x)),
           (match findExpensePs root with
            | [] => root.children.length
            | p0 :: _ => indexOfElem root.children p0),
           mz + 1, maxBinaryIdx tpl.files + 1, idCounterSeed, [], []⟩).newBinaries.foldl
          (fun zf nb => dictSet zf nb.1 (Content.bin nb.2))
          (dictSet tpl.files SEC_KEY (Content.xml (Elem.node root.tag root.attrs
            (processRecords env params data
              ⟨root.children.filter (fun x => !(isExpenseP x)),
               (match findExpensePs root with
                | [] => root.children.length
                | p0 :: _ => indexOfElem root.children p0),
               mz + 1, maxBinaryIdx tpl.files + 1, idCounterSeed, [], []⟩).children
            root.txt))))
        HPF_KEY = some (Content.xml hroot) := by
      rw [lookupD_foldl_binData HPF_KEY (by decide) _ _ hnames,
        lookupD_dictSet_ne _ _ _ _ (by decide)]
      exact hhpf
    rw [hlook]
    dsimp only
    rw [updateContentHpf_noManifest hroot _ hman]

/-- C5, counterexample: the error cases are *not* exactly the claimed
ones.  On a perfectly valid archive — a zip with both required parts and
a manifest element present — whose template block carries the
non-numeric `vertOffset="x"`, the run still aborts with the `ValueError`
of `int('x')`. -/
theorem claim_C5_counterexample :
    (run 0 [] wTplBad (fun _ => none)).1
      = Except.error (RunError.valueError (ErrKind.badInt "x")) ∧
    wTplBad.isZip = true ∧
    lookupD wTplBad.files SEC_KEY = some (Content.xml wRootBad) ∧
    lookupD wTplBad.files HPF_KEY = some (Content.xml wHpf) ∧
    wHpf.findTag ⟨wHpf.tag.ns, "manifest"⟩ = some wMan :=
  ⟨rfl, rfl, rfl, rfl, rfl⟩

/-- **C5 (amended).** The run raises a fatal error and writes no output
when the template is not a zip archive, when `Contents/section0.xml` or
`Contents/content.hpf` is absent, and when binaries were emitted but
`content.hpf` holds no manifest element (the manifest update raising;
with no emitted binaries the update is skipped and the run succeeds).
These are however not the *only* fatal cases: the run also aborts when a
probed numeric attribute fails Python `int` (see the counterexample) —
conversely, on a valid archive whose numeric attributes parse, whose
paragraphs each hold at most one matching run, and whose manifest is
present, the run always succeeds. -/
theorem claim_C5 :
    (∀ (g : ℕ) (data : List DataRow) (tpl : Template) (env : Env),
      tpl.isZip = false →
      (run g data tpl env).1
        = Except.error (RunError.valueError ErrKind.notZipFormat)) ∧
    (∀ (g : ℕ) (data : List DataRow) (tpl : Template) (env : Env),
      tpl.isZip = true → lookupD tpl.files SEC_KEY = none →
      (run g data tpl env).1
        = Except.error (RunError.valueError ErrKind.missingSection)) ∧
    (∀ (g : ℕ) (data : List DataRow) (tpl : Template) (env : Env) (secC : Content),
      tpl.isZip = true → lookupD tpl.files SEC_KEY = some secC →
      lookupD tpl.files HPF_KEY = none →
      (run g data tpl env).1
        = Except.error (RunError.valueError ErrKind.missingManifestPart)) ∧
    (∀ (hroot : Elem) (nbs : List (String × String)),
      hroot.findTag ⟨hroot.tag.ns, "manifest"⟩ = none →
      updateContentHpf (Content.xml hroot) nbs
        = Except.error (RunError.valueError ErrKind.manifestNotFound)) ∧
    (∀ (g : ℕ) (data : List DataRow) (tpl : Template) (env : Env)
      (root hroot : Elem) (params : TemplateParams) (mz : ℤ),
      tpl.isZip = true →
      lookupD tpl.files SEC_KEY = some (Content.xml root) →
      lookupD tpl.files HPF_KEY = some (Content.xml hroot) →
      hroot.findTag ⟨hroot.tag.ns, "manifest"⟩ = none →
      readTemplateParams (findExpensePs root) = Except.ok params →
      (∀ p ∈ root.children, (matchRuns p).length ≤ 1) →
      maxZOrder (Elem.node root.tag root.attrs
        (root.children.filter (fun x => !(isExpenseP x))) root.txt) = Except.ok mz →
      ((run g data tpl env).1
          = Except.error (RunError.valueError ErrKind.manifestNotFound)
        ∨ ∃ out, (run g data tpl env).1 = Except.ok out ∧ out.newBinaries = [])) ∧
    (∀ (g : ℕ) (data : List DataRow) (tpl : Template) (env : Env)
      (root hroot mElem : Elem) (params : TemplateParams) (mz : ℤ),
      tpl.isZip = true →
      lookupD tpl.files SEC_KEY = some (Content.xml root) →
      lookupD tpl.files HPF_KEY = some (Content.xml hroot) →
      hroot.findTag ⟨hroot.tag.ns, "manifest"⟩ = some mElem →
      readTemplateParams (findExpensePs root) = Except.ok params →
      (∀ p ∈ root.children, (matchRuns p).length ≤ 1) →
      maxZOrder (Elem.node root.tag root.attrs
        (root.children.filter (fun x => !(isExpenseP x))) root.txt) = Except.ok mz →
      ∃ out, (run g data tpl env).1 = Except.ok out) := by
  refine ⟨?_, ?_, ?_, ?_, ?_, ?_⟩
  · intro g data tpl env hz
    simp only [run, if_pos hz]
  · intro g data tpl env hz hs
    have hzz : ¬ (tpl.isZip = false) := by simp [hz]
    simp only [run, if_neg hzz, hs]
  · intro g data tpl env secC hz hs hh
    have hzz : ¬ (tpl.isZip = false) := by simp [hz]
    simp only [run, if_neg hzz, hs, hh]
  · intro hroot nbs hman
    exact updateContentHpf_noManifest hroot nbs hman
  · intro g data tpl env root hroot params mz hz hsec hhpf hman hpar hone hmz
    exact run_noman g data tpl env root hroot params mz hz hsec hhpf hman hpar hone hmz
  · intro g data tpl env root hroot mElem params mz hz hsec hhpf hman hpar hone hmz
    obtain ⟨out, hok, _, _, _⟩ := run_ok g data tpl env root hroot mElem params mz
      hz hsec hhpf hman hpar hone hmz
    exact ⟨out, hok⟩

theorem claim_C5_witness :
    ((run 0 [] ⟨false, []⟩ (fun _ => none)).1
      = Except.error (RunError.valueError ErrKind.notZipFormat)) ∧
    ((run 0 [] ⟨true, []⟩ (fun _ => none)).1
      = Except.error (RunError.valueError ErrKind.missingSection)) ∧
    ((run 0 [] ⟨true, [(SEC_KEY, Content.xml wRoot)]⟩ (fun _ => none)).1
      = Except.error (RunError.valueError ErrKind.missingManifestPart)) ∧
    (updateContentHpf (Content.xml wHpfNoMan) [("BinData/image1.png", "B")]
      = Except.error (RunError.valueError ErrKind.manifestNotFound)) ∧
    ((run 0 [] wTplNoMan (fun _ => none)).1
        = Except.error (RunError.valueError ErrKind.manifestNotFound)
      ∨ ∃ out, (run 0 [] wTplNoMan (fun _ => none)).1 = Except.ok out
          ∧ out.newBinaries = []) ∧
    (∃ out, (run 0 [] wTpl (fun _ => none)).1 = Except.ok out) :=
  ⟨claim_C5.1 0 [] ⟨false, []⟩ (fun _ => none) rfl,
   claim_C5.2.1 0 [] ⟨true, []⟩ (fun _ => none) rfl rfl,
   claim_C5.2.2.1 0 [] ⟨true, [(SEC_KEY, Content.xml wRoot)]⟩ (fun _ => none)
     (Content.xml wRoot) rfl rfl rfl,
   claim_C5.2.2.2.1 wHpfNoMan [("BinData/image1.png", "B")] rfl,
   claim_C5.2.2.2.2.1 0 [] wTplNoMan (fun _ => none) wRoot wHpfNoMan {} 0
     rfl rfl rfl rfl rfl (by decide) rfl,
   claim_C5.2.2.2.2.2 0 [] wTpl (fun _ => none) wRoot wHpf wMan {} 0
     rfl rfl rfl rfl rfl (by decide) rfl⟩
